import Mathlib

/-!
Verification of the FCN pricing backend.

This file gives a shallow embedding of the FCN quoting backend
(`fcn-web-app/backend/main.py`) and settles a list of claims about it.

Modelling conventions:
* Python floats are idealized as rationals (`ℚ`); a float `NaN` (pandas missing
  value) is `none : Option ℚ`.  `np.sqrt` is an opaque parameter `sqrtFn`.
* A pandas row dictionary for one underlying is the structure `Obs`; `row.get(col, nan)`
  is `Obs.get`.
* The Python feature dict is a function `String → Option ℚ`, built by successive
  key updates (`upd`) in the source's statement order.  A key absent from the dict
  and a key holding `NaN` both read back as `none`, matching `features.get(k, np.nan)`.
* `list.sort(key=k, reverse=True)` / `sorted(..., reverse=True)` is modelled by
  CPython's actual strategy: reverse the list, stable-insert ascending
  (an element is placed before the first strictly greater element), reverse again.
* Division on `ℚ` is total (`x / 0 = 0`); every division in the embedded code is
  either guarded by the source (`hist_iv != 0`, `Annualized_Vol_Factor > 0`) or has a
  denominator bounded away from zero by the request validation ranges, except
  `IV_HV_Ratio`, whose zero-denominator case no claim touches.
-/

/- Batteries marks the rational operations `@[irreducible]`; closed evaluations of
the embedded pipeline (witnesses and counterexamples) need them to reduce. -/
attribute [local semireducible] Rat.mul Rat.add Rat.sub Rat.inv Rat.ofScientific

/-- A feature dictionary: feature name to value, `none` meaning `NaN`/absent. -/
abbrev FeatMap := String → Option ℚ

/-- One dictionary update, `features[k] = v`. -/
def upd (f : FeatMap) (k : String) (v : Option ℚ) : FeatMap :=
  fun s => if s = k then v else f s

/-- One market-data row for one underlying (columns renamed as in `load_iv_data`).
`none` is pandas `NaN`. -/
structure Obs where
  px_last : Option ℚ
  put_imp_vol_3m : Option ℚ
  call_imp_vol_2m_25d : Option ℚ
  put_imp_vol_2m_25d : Option ℚ
  hist_put_imp_vol : Option ℚ
  vol_stddev : Option ℚ
  volatility_90d : Option ℚ
  vol_percentile : Option ℚ
  chg_pct_1yr : Option ℚ
  corr_coef : Option ℚ
  dividend_yield : Option ℚ
deriving DecidableEq

/-- `row.get(col, np.nan)` for the eleven numeric columns. -/
def Obs.get (o : Obs) (c : String) : Option ℚ :=
  if c = "PX_LAST" then o.px_last
  else if c = "PUT_IMP_VOL_3M" then o.put_imp_vol_3m
  else if c = "CALL_IMP_VOL_2M_25D" then o.call_imp_vol_2m_25d
  else if c = "PUT_IMP_VOL_2M_25D" then o.put_imp_vol_2m_25d
  else if c = "HIST_PUT_IMP_VOL" then o.hist_put_imp_vol
  else if c = "VOL_STDDEV" then o.vol_stddev
  else if c = "VOLATILITY_90D" then o.volatility_90d
  else if c = "VOL_PERCENTILE" then o.vol_percentile
  else if c = "CHG_PCT_1YR" then o.chg_pct_1yr
  else if c = "CORR_COEF" then o.corr_coef
  else if c = "DIVIDEND_YIELD" then o.dividend_yield
  else none

/-- The `iv_cols` list of `compute_features`. -/
def ivCols : List String :=
  ["PX_LAST", "PUT_IMP_VOL_3M", "CALL_IMP_VOL_2M_25D", "PUT_IMP_VOL_2M_25D",
   "HIST_PUT_IMP_VOL", "VOL_STDDEV", "VOLATILITY_90D", "VOL_PERCENTILE",
   "CHG_PCT_1YR", "CORR_COEF", "DIVIDEND_YIELD"]

/-- Python's `suffix = '' if i == 0 else f'_{i+1}'`. -/
def suffixStr (i : ℕ) : String := if i = 0 then "" else "_" ++ toString (i + 1)

/-! ## CPython list sorting

`binInsert lt acc x` inserts `x` into the already-sorted `acc` before the first
element `y` with `lt x y = true` (for a short list, CPython's binary insertion
finds exactly this position; with `reverse=True` CPython reverses the list before
and after an ascending stable sort). -/

/-- Insert `pivot` before the first element it compares strictly less than. -/
def binInsert (lt : α → α → Bool) : List α → α → List α
  | [], pivot => [pivot]
  | y :: ys, pivot => if lt pivot y then pivot :: y :: ys else y :: binInsert lt ys pivot

/-- Stable ascending sort (elements inserted left to right). -/
def pySortAsc (lt : α → α → Bool) (l : List α) : List α := l.foldl (binInsert lt) []

/-- `sorted(l, key=…, reverse=reverse)` with `lt` the comparison on elements. -/
def pySorted (lt : α → α → Bool) (reverse : Bool) (l : List α) : List α :=
  if reverse then (pySortAsc lt l.reverse).reverse else pySortAsc lt l

/-- Python `<` on two floats that may be `NaN`: any comparison with `NaN` is false. -/
def optLtPy (a b : Option ℚ) : Bool :=
  match a, b with
  | some x, some y => decide (x < y)
  | _, _ => false

/-- Comparison used by `iv_data_list.sort(key=lambda x: x.get('PUT_IMP_VOL_3M', 0) or 0,
reverse=True)`: the key is the row's 3-month put implied vol (`v or 0` only turns `0.0`
into `0`, the same number; a `NaN` key stays `NaN` and compares false). -/
def obsLt (a b : Obs) : Bool := optLtPy a.put_imp_vol_3m b.put_imp_vol_3m

/-- `while len(iv_data_list) < 4: iv_data_list.append(None)`. -/
def padTo4 (l : List Obs) : List (Option Obs) :=
  l.map some ++ List.replicate (4 - l.length) none

/-- The `input_data` dict assembled by the endpoints. -/
structure InputData where
  strike : ℚ
  ko_barrier : ℚ
  ki_barrier : ℚ
  tenor : ℕ
  cost : ℚ
  barrier_type : String
  non_call_periods : ℕ
deriving DecidableEq

/-- `np.mean` on a nonempty list (callers guard emptiness). -/
def qMean (l : List ℚ) : ℚ := l.sum / l.length

/-- The `iv_pairs` list: for each of the four slots, the raw `PUT_IMP_VOL_3M{suffix}`
value read back from the feature dict, with a missing value replaced by `-np.inf`
(modelled as `⊥ : WithBot ℚ`). -/
def ivPairs (f : FeatMap) : List (ℕ × WithBot ℚ) :=
  (List.range 4).map fun i =>
    match f ("PUT_IMP_VOL_3M" ++ suffixStr i) with
    | some v => (i, (v : WithBot ℚ))
    | none => (i, (⊥ : WithBot ℚ))

/-- `sorted(iv_pairs, key=lambda x: x[1], reverse=True)`. -/
def sortedPairs (f : FeatMap) : List (ℕ × WithBot ℚ) :=
  pySorted (fun a b => decide (a.2 < b.2)) true (ivPairs f)

/-- `sorted_indices = [p[0] for p in sorted_pairs]`. -/
def sortedIndices (f : FeatMap) : List ℕ := (sortedPairs f).map Prod.fst

/-- `iv_values = [d.get('PUT_IMP_VOL_3M') for d in iv_data_list if d and pd.notna(...)]`. -/
def ivValuesOf (ivDataList : List (Option Obs)) : List ℚ :=
  ivDataList.filterMap fun d => d.bind fun o => o.get "PUT_IMP_VOL_3M"

/-- `compute_features` from `fcn-web-app/backend/main.py`, statement by statement.
Where the source writes a key on both arms of an `if` (the risk-score block) the
two arms are folded into a single conditional value for that key; the resulting
dictionary is pointwise identical. -/
def computeFeatures (sqrtFn : ℚ → ℚ) (inp : InputData) (ivDataList : List (Option Obs)) :
    FeatMap :=
  let strike := inp.strike
  let ko := inp.ko_barrier
  let ki := inp.ki_barrier
  let tenor : ℚ := inp.tenor
  let nonCall : ℚ := inp.non_call_periods
  let cost := inp.cost
  let f : FeatMap := fun _ => none
  let f := upd f "Strike (%)" (some strike)
  let f := upd f "KO Barrier (%)" (some ko)
  let f := upd f "KI Barrier (%)" (some ki)
  let f := upd f "Tenor (m)" (some tenor)
  let f := upd f "Non-call Periods (m)" (some nonCall)
  let f := upd f "Cost (%)" (some cost)
  let f := upd f "Barrier_Type_AKI" (some (if inp.barrier_type = "AKI" then 1 else 0))
  let noKo : ℚ := if inp.non_call_periods = inp.tenor then 1 else 0
  let f := upd f "No_KO_Flag" (some noKo)
  let f := upd f "No_KO_Tenor_Interaction" (some (noKo * tenor))
  let f := upd f "No_KO_KI_Interaction" (some (noKo * ki))
  let f := upd f "No_KO_Strike_Interaction" (some (noKo * strike))
  let f := upd f "Fee" (some (100 - cost))
  let f := upd f "Annualized_Fee" (some ((100 - cost) / tenor * 12))
  let f := upd f "Tenor_Sqrt" (some (sqrtFn tenor))
  let f := upd f "Tenor_Squared" (some (tenor ^ 2))
  let f := upd f "Callable_Period" (some (tenor - nonCall))
  let f := upd f "Callable_Ratio" (some ((tenor - nonCall) / tenor))
  let f := upd f "NonCall_Ratio" (some (nonCall / tenor))
  let f := upd f "KO_Strike_Distance" (some (ko - strike))
  let f := upd f "Strike_KI_Distance" (some (strike - ki))
  let f := upd f "KO_KI_Range" (some (ko - ki))
  let f := upd f "KI_Strike_Ratio" (some (ki / strike))
  let f := upd f "KO_Strike_Ratio" (some (ko / strike))
  let f := upd f "KI_Distance_Pct" (some (strike - ki))
  let f := upd f "KO_Distance_Pct" (some (ko - strike))
  let basketSize : ℕ := (ivDataList.filter Option.isSome).length
  let bs : ℚ := basketSize
  let f := upd f "Basket_Size" (some bs)
  let f := upd f "Num_Underlyings" (some bs)
  let f := upd f "Basket_Complexity_Factor" (some (bs / 3))
  -- raw per-underlying columns (`PX_LAST`, `PX_LAST_2`, ...)
  let f := (List.range 4).foldl (fun f i =>
      ivCols.foldl (fun f col =>
        upd f (col ++ suffixStr i)
          (match ivDataList.getD i none with
           | some o => o.get col
           | none => none)) f) f
  -- ranked columns, by 3-month put IV descending, missing treated as -inf
  let sIdx := sortedIndices f
  let f := ivCols.foldl (fun f col =>
      (List.range 4).foldl (fun f rank =>
        upd f (col ++ "_Rank_" ++ toString (rank + 1))
          (f (col ++ suffixStr (sIdx.getD rank 0)))) f) f
  -- IV skew and premium, raw version
  let f := (List.range 4).foldl (fun f i =>
      let putIv := f ("PUT_IMP_VOL_2M_25D" ++ suffixStr i)
      let callIv := f ("CALL_IMP_VOL_2M_25D" ++ suffixStr i)
      let histIv := f ("VOLATILITY_90D" ++ suffixStr i)
      let iv3m := f ("PUT_IMP_VOL_3M" ++ suffixStr i)
      let f := upd f ("IV_Skew_" ++ toString (i + 1))
        (match putIv, callIv with
         | some p, some c => some (p - c)
         | _, _ => none)
      upd f ("IV_Premium_" ++ toString (i + 1))
        (match iv3m, histIv with
         | some v, some h => if h = 0 then none else some ((v - h) / h)
         | _, _ => none)) f
  -- IV skew and premium, ranked version
  let f := (List.range 4).foldl (fun f rank =>
      let origIdx := sIdx.getD rank 0
      let f := upd f ("IV_Skew_Rank_" ++ toString (rank + 1))
        (f ("IV_Skew_" ++ toString (origIdx + 1)))
      upd f ("IV_Premium_Rank_" ++ toString (rank + 1))
        (f ("IV_Premium_" ++ toString (origIdx + 1)))) f
  -- basket aggregates
  let ivValues : List ℚ := ivValuesOf ivDataList
  let hvValues : List ℚ := ivDataList.filterMap fun d => d.bind fun o => o.get "VOLATILITY_90D"
  let corrValues : List ℚ := ivDataList.filterMap fun d => d.bind fun o => o.get "CORR_COEF"
  let f := upd f "Basket_Worst_IV" ivValues.max?
  let f := upd f "Basket_Best_IV" ivValues.min?
  let f := upd f "Basket_IV_Range"
      (if 2 ≤ ivValues.length then
        match ivValues.max?, ivValues.min? with
        | some a, some b => some (a - b)
        | _, _ => none
       else some 0)
  let f := upd f "Basket_Avg_IV" (if ivValues = [] then none else some (qMean ivValues))
  let f := upd f "Basket_Worst_HV" hvValues.max?
  let f := upd f "Basket_Best_HV" hvValues.min?
  let f := upd f "Basket_Avg_HV" (if hvValues = [] then none else some (qMean hvValues))
  let f := upd f "Basket_Avg_Corr" (if corrValues = [] then none else some (qMean corrValues))
  let f := upd f "Basket_Min_Corr" corrValues.min?
  let f := upd f "Max_Correlation" corrValues.max?
  let f := upd f "Min_Correlation" corrValues.min?
  let skewValues : List ℚ := (List.range basketSize).filterMap
      (fun i => f ("IV_Skew_" ++ toString (i + 1)))
  let premiumValues : List ℚ := (List.range basketSize).filterMap
      (fun i => f ("IV_Premium_" ++ toString (i + 1)))
  let f := upd f "Basket_Avg_Skew" (if skewValues = [] then none else some (qMean skewValues))
  let f := upd f "Basket_Max_Skew" skewValues.max?
  let f := upd f "Basket_Avg_IV_Premium"
      (if premiumValues = [] then none else some (qMean premiumValues))
  let f := upd f "Basket_Max_IV_Premium" premiumValues.max?
  let f := upd f "IV_HV_Ratio"
      (if ivValues = [] ∨ hvValues = [] then none
       else some (qMean ivValues / qMean hvValues))
  -- risk-score block, guarded by `pd.notna(worst_iv)`
  let rank1Iv := f "PUT_IMP_VOL_3M_Rank_1"
  let worstIv := f "Basket_Worst_IV"
  let avgCorr := f "Basket_Avg_Corr"
  let avgIv := f "Basket_Avg_IV"
  let avf : Option ℚ := worstIv.map fun w => w / 100 * sqrtFn (tenor / 12)
  let f := upd f "Annualized_Vol_Factor" avf
  let f := upd f "KI_Distance_Std"
      (match avf with
       | some a => if 0 < a then (f "KI_Distance_Pct").map (fun d => d / 100 / a) else none
       | none => none)
  let f := upd f "KO_Distance_Std"
      (match avf with
       | some a => if 0 < a then (f "KO_Distance_Pct").map (fun d => d / 100 / a) else none
       | none => none)
  let f := upd f "KI_Distance_Std_Sorted" (f "KI_Distance_Std")
  let f := upd f "Annualized_Vol"
      (match worstIv with
       | some _ => avgIv.map fun m => m * sqrtFn (tenor / 12)
       | none => none)
  let f := upd f "Corr_Adjusted_IV"
      (match worstIv with
       | some w =>
         match avgCorr with
         | some c =>
           if 1 < basketSize then some (w * (1 + 0.1 * (bs - 1) * (1 - c))) else some w
         | none => some w
       | none => none)
  let meanWorstIv : ℚ := 43.5
  let f := upd f "KI_Risk_Score" (worstIv.map fun w => (w / meanWorstIv) * (ki / 100))
  let f := upd f "Basket_Risk_Score"
      ((f "KI_Risk_Score").map fun r =>
        let r := r * (1 + 0.2 * (bs - 1))
        match avgCorr with
        | some c => if 1 < basketSize then r * (1 + 0.1 * (1 - c)) else r
        | none => r)
  let f := upd f "Risk_Score_Sorted"
      (match worstIv with
       | some _ =>
         match rank1Iv with
         | some r1 => some ((r1 / 52.4) * (ki / 100) * (1 + 0.2 * (bs - 1)))
         | none => (f "KI_Risk_Score").map fun r => r * (1 + 0.2 * (bs - 1))
       | none => none)
  let f := upd f "Return_Potential" (some ((ko / 100) * (tenor / 12)))
  let f := upd f "No_KO_Basket_Interaction" ((f "No_KO_Flag").map fun v => v * bs)
  f

/-- The single-quote feature path (`calculate_fcn` lines 549–572): sort the found
rows by 3-month put IV descending, pad with `None` to four slots, compute features. -/
def singleQuoteFeatures (sqrtFn : ℚ → ℚ) (inp : InputData) (obsList : List Obs) : FeatMap :=
  computeFeatures sqrtFn inp (padTo4 (pySorted obsLt true obsList))

/-- `features_df.reindex(columns=feature_cols)`: one value per schema column, in
schema order; a column the computed features do not provide reads back `none` (NaN). -/
def reindex (fm : FeatMap) (cols : List String) : List (String × Option ℚ) :=
  cols.map fun c => (c, fm c)

/-! ## The API layer -/

/-- A per-date symbol table: `df_iv[df_iv['BBG_Code'] == bbg]` giving the first
matching row, or nothing when the symbol has no row. -/
abbrev SymTable := String → Option Obs

/-- The loaded regressor: one prediction per reindexed feature row; `none` models a
`NaN`/`inf` prediction (turned into `0.0` by `safe_float` + the `None` check). -/
abbrev ModelFn := List (String × Option ℚ) → Option ℚ

/-- Errors surfaced by the endpoints.  `http` is a direct `HTTPException`;
`calcWrapped e` is `calculate_fcn`'s `except Exception` handler re-raising `e` as
status 500 with detail `f"計算錯誤: {e}"` (FastAPI's `HTTPException` derives from
`Exception`, so an `HTTPException` raised inside the `try` block is caught and
wrapped); `batchWrapped` is the same for `batch_calculate_fcn` (`批次計算錯誤`). -/
inductive ApiError where
  | http (status : ℕ) (detail : String)
  | calcWrapped (inner : ApiError)
  | batchWrapped (inner : ApiError)
deriving DecidableEq

/-- The `stock_info[bbg]` entry (`safe_float` of three row fields). -/
structure StockInfo where
  price : Option ℚ
  put_iv_3m : Option ℚ
  vol_90d : Option ℚ
deriving DecidableEq

/-- The `FCNRequest` pydantic model (fields as declared). -/
structure FCNRequest where
  stocks : List String
  period : ℕ
  strikePrice : ℚ
  knockOutPrice : ℚ
  knockInPrice : ℚ
  kiType : String
  customFeeRate : ℚ
  pricingDate : Option String
  nonCallPeriods : Option ℕ

/-- Pydantic range validation for `FCNRequest` (enforced before the handler runs). -/
def FCNRequest.Valid (r : FCNRequest) : Prop :=
  1 ≤ r.stocks.length ∧ r.stocks.length ≤ 4 ∧
  2 ≤ r.period ∧ r.period ≤ 12 ∧
  50 ≤ r.strikePrice ∧ r.strikePrice ≤ 100 ∧
  90 ≤ r.knockOutPrice ∧ r.knockOutPrice ≤ 150 ∧
  50 ≤ r.knockInPrice ∧ r.knockInPrice ≤ 95 ∧
  95 ≤ r.customFeeRate ∧ r.customFeeRate ≤ 100 ∧
  (∀ n ∈ r.nonCallPeriods, 1 ≤ n ∧ n ≤ 12)

/-- The `input_params` echo dict of a single-quote response. -/
structure FCNInputParams where
  tenure_months : ℕ
  strike_pct : ℚ
  ko_barrier_pct : ℚ
  ki_barrier_pct : ℚ
  ki_type : String
  cost_pct : ℚ
  non_call_periods : ℕ
  no_ko : Bool
deriving DecidableEq

/-- The single-quote response (`FCNResponse`); `market_params` is modelled by its
`pricing_date` entry (the cached SOFR/VIX echo carries no logic). -/
structure FCNResponse where
  annualized_yield : ℚ
  calibrated_yield : Option ℚ
  model_used : String
  has_calibration : Bool
  input_params : FCNInputParams
  pricing_date : String
  stock_info : List (String × StockInfo)

/-- The per-stock lookup loop of `calculate_fcn`: collect each requested symbol's
row and `stock_info` entry in order; the first symbol without a row raises. -/
def collectStocks (table : SymTable) : List String → Except String (List Obs × List (String × StockInfo))
  | [] => .ok ([], [])
  | bbg :: rest =>
    match table bbg with
    | some o =>
      match collectStocks table rest with
      | .ok (l, info) =>
        .ok (o :: l, (bbg, ⟨o.px_last, o.put_imp_vol_3m, o.volatility_90d⟩) :: info)
      | .error e => .error e
    | none => .error bbg

/-- `non_call = request.nonCallPeriods if request.nonCallPeriods else 1` followed by
`non_call = min(non_call, request.period)` (`None` and `0` are falsy). -/
def effectiveNonCall (ncp : Option ℕ) (period : ℕ) : ℕ :=
  let n := match ncp with
           | some n => if n = 0 then 1 else n
           | none => 1
  min n period

/-- `pricing_date = request.pricingDate if request.pricingDate else dates[0]`
(an empty string is falsy; `dates` is nonempty at this point). -/
def resolvePricingDate (pricingDate : Option String) (dates : List String) : String :=
  match pricingDate with
  | some d => if d = "" then dates.headD "" else d
  | none => dates.headD ""

/-- The `input_data` dict built by `calculate_fcn`. -/
def mkInputData (strike ko ki : ℚ) (tenor : ℕ) (cost : ℚ) (barrierType : String)
    (nonCall : ℕ) : InputData :=
  { strike := strike, ko_barrier := ko, ki_barrier := ki, tenor := tenor,
    cost := cost, barrier_type := barrierType, non_call_periods := nonCall }

/-- The success payload of `calculate_fcn`, given the rows and stock info collected
for the requested symbols. -/
def singleSuccess (predict : ModelFn) (featureCols : List String) (sqrtFn : ℚ → ℚ)
    (dates : List String) (req : FCNRequest) (ivList : List Obs)
    (stockInfo : List (String × StockInfo)) : FCNResponse :=
  let pricingDate := resolvePricingDate req.pricingDate dates
  let nonCall := effectiveNonCall req.nonCallPeriods req.period
  let inp := mkInputData req.strikePrice req.knockOutPrice req.knockInPrice
               req.period req.customFeeRate req.kiType nonCall
  let fm := singleQuoteFeatures sqrtFn inp ivList
  let X := reindex fm featureCols
  let coupon := (predict X).getD 0
  { annualized_yield := coupon, calibrated_yield := some coupon,
    model_used := "HistGradient Boosting (R²=0.92)", has_calibration := true,
    input_params := { tenure_months := req.period,
                      strike_pct := req.strikePrice,
                      ko_barrier_pct := req.knockOutPrice,
                      ki_barrier_pct := req.knockInPrice,
                      ki_type := req.kiType, cost_pct := req.customFeeRate,
                      non_call_periods := nonCall,
                      no_ko := decide (nonCall = req.period) },
    pricing_date := pricingDate, stock_info := stockInfo }

/-- `POST /api/fcn/calculate` (`calculate_fcn`).  `ivDb date = none` models a
missing snapshot file (`FileNotFoundError`, caught and surfaced as 404). -/
def calculateFcn (model : Option ModelFn) (featureCols : List String) (sqrtFn : ℚ → ℚ)
    (ivDb : String → Option SymTable) (dates : List String) (req : FCNRequest) :
    Except ApiError FCNResponse :=
  match model with
  | none => .error (.http 500 "模型未載入")
  | some predict =>
    if dates = [] then .error (.http 404 "沒有可用的IV資料")
    else
      let pricingDate := resolvePricingDate req.pricingDate dates
      if req.knockInPrice ≥ req.strikePrice then .error (.http 400 "保護價必須低於轉換價")
      else if req.knockOutPrice ≤ req.strikePrice then .error (.http 400 "上限價必須高於轉換價")
      else
        match ivDb pricingDate with
        | none => .error (.http 404 ("找不到IV資料檔案: data/iv_data/" ++ pricingDate ++ ".xlsx"))
        | some table =>
          match collectStocks table req.stocks with
          | .error bbg => .error (.calcWrapped (.http 400 ("找不到股票 " ++ bbg ++ " 的IV資料")))
          | .ok (ivList, stockInfo) =>
            .ok (singleSuccess predict featureCols sqrtFn dates req ivList stockInfo)

/-! ## Batch quoting -/

/-- The `BatchFCNRequest` pydantic model. -/
structure BatchFCNRequest where
  stockPool : List String
  basketSizes : List ℕ
  period : ℕ
  strikePrice : ℚ
  knockOutPrice : ℚ
  knockInPrice : ℚ
  kiType : String
  customFeeRate : ℚ
  nonCallPeriods : Option ℕ
  pricingDate : Option String

/-- One batch quote (`stockInfo` echo included; `yieldBoost` is set by the
annotation pass, `id` by the running counter). -/
structure Quote where
  id : String
  stocks : List String
  basketSize : ℕ
  couponRate : ℚ
  distanceToKI : ℚ
  maxIV : Option ℚ
  riskLevel : String
  stockInfo : List (String × StockInfo)
  yieldBoost : Option ℚ
deriving DecidableEq

/-- The `params` echo of a batch response. -/
structure BatchParams where
  period : ℕ
  strikePrice : ℚ
  knockOutPrice : ℚ
  knockInPrice : ℚ
  kiType : String
  nonCallPeriods : ℕ
  noKO : Bool
deriving DecidableEq

/-- The batch response (`marketParams` modelled by `pricingDate`, as above). -/
structure BatchResponse where
  quotes : List Quote
  totalCount : ℕ
  pricingDate : String
  params : BatchParams
deriving DecidableEq

/-- Python 3 `round` to an integer: round half to even.  `q.num.ediv q.den` is
`⌊q⌋` written computably (Euclidean division by the positive denominator). -/
def roundHalfEven (q : ℚ) : ℤ :=
  let fl : ℤ := q.num.ediv q.den
  let frac := q - fl
  if frac < 1/2 then fl
  else if 1/2 < frac then fl + 1
  else if fl % 2 = 0 then fl else fl + 1

/-- `round(q, 2)`. -/
def round2 (q : ℚ) : ℚ := roundHalfEven (q * 100) / 100

/-- `round(q, 1)`. -/
def round1 (q : ℚ) : ℚ := roundHalfEven (q * 10) / 10

/-- The risk-level classification of `batch_calculate_fcn` (deal terms only). -/
def riskLevelOf (ki strike : ℚ) : String :=
  if ki < 60 ∧ 85 < strike then "low"
  else if 70 < ki ∨ strike < 70 then "high"
  else "medium"

/-- Python `max` over a nonempty list (callers guarantee nonemptiness). -/
def pyMax (l : List ℚ) : ℚ :=
  match l with
  | [] => 0
  | x :: xs => xs.foldl max x

/-- Python `min` over a nonempty list of sizes. -/
def pyMinNat (l : List ℕ) : ℕ :=
  match l with
  | [] => 0
  | x :: xs => xs.foldl min x

/-- `itertools.combinations`: all length-`k` subsequences, in the generator's
order (input order preserved inside every combination). -/
def combinations : ℕ → List α → List (List α)
  | 0, _ => [[]]
  | _ + 1, [] => []
  | k + 1, x :: xs => (combinations k xs).map (x :: ·) ++ combinations (k + 1) xs

/-- Keys of a Python dict built by repeated insertion: first-occurrence order,
duplicates collapsed onto their first position. -/
def dictKeysFirst (l : List String) : List String :=
  l.foldl (fun acc x => if x ∈ acc then acc else acc ++ [x]) []

/-- `stock_info[s]` as rebuilt for a combination member (always present). -/
def mkStockInfo (o? : Option Obs) : StockInfo :=
  match o? with
  | some o => ⟨o.px_last, o.put_imp_vol_3m, o.volatility_90d⟩
  | none => ⟨none, none, none⟩

/-- One quote of the batch loop body for the combination `combo` (everything except
the running `quote-N` id, which is assigned by `assignIds`). -/
def mkQuote (predict : ModelFn) (featureCols : List String) (sqrtFn : ℚ → ℚ)
    (table : SymTable) (baseInput : InputData) (basketSize : ℕ) (combo : List String) :
    Quote :=
  let ivList : List Obs := combo.filterMap table
  let ivSorted := pySorted obsLt true ivList
  let fm := computeFeatures sqrtFn baseInput (padTo4 ivSorted)
  let X := reindex fm featureCols
  let coupon := (predict X).getD 0
  -- `max([stock_info[s]['put_iv_3m'] or 0 for s in combo_list])`
  let maxIv := pyMax (combo.map fun s => (((table s).bind fun o => o.put_imp_vol_3m)).getD 0)
  let distanceToKI := baseInput.strike - baseInput.ki_barrier
  { id := "",
    stocks := combo,
    basketSize := basketSize,
    couponRate := round2 coupon,
    distanceToKI := round1 distanceToKI,
    -- `round(max_iv, 1) if max_iv else None` (`0.0` is falsy)
    maxIV := if maxIv = 0 then none else some (round1 maxIv),
    riskLevel := riskLevelOf baseInput.ki_barrier baseInput.strike,
    stockInfo := combo.map fun s => (s, mkStockInfo (table s)),
    yieldBoost := none }

/-- The running `quote_id` counter: `id = f"quote-{n}"` in generation order. -/
def assignIds (n : ℕ) : List Quote → List Quote
  | [] => []
  | q :: rest => { q with id := "quote-" ++ toString n } :: assignIds (n + 1) rest

/-- `avg_coupon_by_size`: defined for a size iff it is a requested valid size with
at least one quote; the average of that size's (rounded) coupon rates. -/
def avgCouponBySize (validSizes : List ℕ) (quotes : List Quote) (k : ℕ) : Option ℚ :=
  if k ∈ validSizes ∧ quotes.filter (fun q => decide (q.basketSize = k)) ≠ [] then
    some (qMean ((quotes.filter (fun q => decide (q.basketSize = k))).map Quote.couponRate))
  else none

/-- The yield-boost annotation of one quote. -/
def annotateBoost (avgOf : ℕ → Option ℚ) (minSize : ℕ) (q : Quote) : Quote :=
  if minSize < q.basketSize ∧ (avgOf minSize).isSome then
    { q with yieldBoost := some (round2 ((avgOf q.basketSize).getD 0 - (avgOf minSize).getD 0)) }
  else { q with yieldBoost := none }

/-- `valid_sizes = [s for s in request.basketSizes if 1 <= s <= 4]`. -/
def validSizesOf (basketSizes : List ℕ) : List ℕ :=
  basketSizes.filter fun s => decide (1 ≤ s) && decide (s ≤ 4)

/-- `valid_stocks = list(stock_iv_data.keys())`: pool symbols that have a row,
first-occurrence order, deduplicated by dict-key semantics. -/
def validStocksOf (table : SymTable) (pool : List String) : List String :=
  dictKeysFirst (pool.filter fun s => (table s).isSome)

/-- The raw quote list of the batch loop: every valid size, every combination
(sizes exceeding the valid-stock count are skipped). -/
def batchQuotesRaw (predict : ModelFn) (featureCols : List String) (sqrtFn : ℚ → ℚ)
    (table : SymTable) (baseInput : InputData) (validSizes : List ℕ)
    (validStocks : List String) : List Quote :=
  validSizes.flatMap fun k =>
    if validStocks.length < k then []
    else (combinations k validStocks).map (mkQuote predict featureCols sqrtFn table baseInput k)

/-- The success payload of `batch_calculate_fcn`, given the resolved symbol table:
generate quotes for every valid size and combination, assign running ids, sort by
coupon rate descending, annotate yield boosts. -/
def batchSuccess (predict : ModelFn) (featureCols : List String) (sqrtFn : ℚ → ℚ)
    (table : SymTable) (dates : List String) (req : BatchFCNRequest) : BatchResponse :=
  let pricingDate := resolvePricingDate req.pricingDate dates
  let validSizes := validSizesOf req.basketSizes
  let validStocks := validStocksOf table req.stockPool
  let nonCall := effectiveNonCall req.nonCallPeriods req.period
  let baseInput := mkInputData req.strikePrice req.knockOutPrice req.knockInPrice
                     req.period req.customFeeRate req.kiType nonCall
  let quotesRaw := batchQuotesRaw predict featureCols sqrtFn table baseInput
                     validSizes validStocks
  let quotesIds := assignIds 0 quotesRaw
  let sortedQuotes := pySorted (fun a b => decide (a.couponRate < b.couponRate)) true quotesIds
  let minSize := pyMinNat validSizes
  let avgOf := avgCouponBySize validSizes sortedQuotes
  let finalQuotes := sortedQuotes.map (annotateBoost avgOf minSize)
  { quotes := finalQuotes, totalCount := finalQuotes.length,
    pricingDate := pricingDate,
    params := { period := req.period, strikePrice := req.strikePrice,
                knockOutPrice := req.knockOutPrice,
                knockInPrice := req.knockInPrice,
                kiType := req.kiType, nonCallPeriods := nonCall,
                noKO := decide (nonCall = req.period) } }

/-- `POST /api/fcn/batch-calculate` (`batch_calculate_fcn`). -/
def batchCalculateFcn (model : Option ModelFn) (featureCols : List String) (sqrtFn : ℚ → ℚ)
    (ivDb : String → Option SymTable) (dates : List String) (req : BatchFCNRequest) :
    Except ApiError BatchResponse :=
  match model with
  | none => .error (.http 500 "模型未載入")
  | some predict =>
    if dates = [] then .error (.http 404 "沒有可用的IV資料")
    else
      let pricingDate := resolvePricingDate req.pricingDate dates
      if req.knockInPrice ≥ req.strikePrice then .error (.http 400 "保護價必須低於轉換價")
      else if req.knockOutPrice ≤ req.strikePrice then .error (.http 400 "上限價必須高於轉換價")
      else
        let validSizes := validSizesOf req.basketSizes
        if validSizes = [] then .error (.http 400 "組合大小必須在1-4之間")
        else
          match ivDb pricingDate with
          | none => .error (.http 404 ("找不到IV資料檔案: data/iv_data/" ++ pricingDate ++ ".xlsx"))
          | some table =>
            let validStocks := validStocksOf table req.stockPool
            if validStocks = [] then .error (.batchWrapped (.http 400 "股票池中沒有可用的IV資料"))
            else .ok (batchSuccess predict featureCols sqrtFn table dates req)

/-! ## Concrete fixtures used by witnesses and counterexamples -/

/-- A concrete stand-in for `np.sqrt` in closed evaluations. -/
def sqrt0 : ℚ → ℚ := fun _ => 0

/-- A row with only a price and a 3-month put IV. -/
def obsMk (px iv : Option ℚ) : Obs :=
  ⟨px, iv, none, none, none, none, none, none, none, none, none⟩

def obsTieA : Obs := obsMk (some 100) (some 30)

def obsTieB : Obs := obsMk (some 200) (some 30)

def obsHi : Obs := obsMk (some 1) (some 40)

def obsLo : Obs := obsMk (some 2) (some 20)

def inpEx : InputData := mkInputData 80 100 60 6 99 "EKI" 1

def tableEx : SymTable := fun s =>
  if s = "AAA" then some obsHi else if s = "BBB" then some obsLo else none

def ivDbEx : String → Option SymTable := fun d =>
  if d = "20250101" then some tableEx else none

def modelEx : ModelFn := fun _ => some 5

def reqEx : FCNRequest :=
  { stocks := ["AAA", "BBB"], period := 6, strikePrice := 80, knockOutPrice := 100,
    knockInPrice := 60, kiType := "EKI", customFeeRate := 99,
    pricingDate := some "20250101", nonCallPeriods := some 1 }

def breqEx : BatchFCNRequest :=
  { stockPool := ["AAA", "BBB"], basketSizes := [1, 2], period := 6, strikePrice := 80,
    knockOutPrice := 100, knockInPrice := 60, kiType := "EKI", customFeeRate := 99,
    nonCallPeriods := some 1, pricingDate := some "20250101" }

/-- The same batch request with a duplicated size entry: size 1 is requested once,
size 2 twice. -/
def breqDup : BatchFCNRequest :=
  { breqEx with basketSizes := [1, 2, 2] }

/-- A model that reads back the first feature of the row (used to build concrete
batches whose coupons differ per combination). -/
def predictPx : ModelFn := fun X => (X.headD ("", none)).2

def obsP1 : Obs := obsMk (some 0) (some 30)

def obsP2 : Obs := obsMk (some 0) (some 20)

def obsP3 : Obs := obsMk (some (1/100)) (some 10)

def tableP : SymTable := fun s =>
  if s = "S1" then some obsP1 else if s = "S2" then some obsP2
  else if s = "S3" then some obsP3 else none

def ivDbP : String → Option SymTable := fun d => if d = "20250101" then some tableP else none

def breqP : BatchFCNRequest :=
  { stockPool := ["S1", "S2", "S3"], basketSizes := [1, 2], period := 6, strikePrice := 80,
    knockOutPrice := 100, knockInPrice := 60, kiType := "EKI", customFeeRate := 99,
    nonCallPeriods := some 1, pricingDate := some "20250101" }

/-! ## Sorting lemmas -/

theorem binInsert_perm (lt : α → α → Bool) (l : List α) (x : α) :
    (binInsert lt l x).Perm (x :: l) := by
  induction l with
  | nil => simp [binInsert]
  | cons y ys ih =>
    simp only [binInsert]
    split
    · exact List.Perm.refl _
    · exact (ih.cons y).trans (List.Perm.swap x y ys)

theorem foldl_binInsert_perm (lt : α → α → Bool) :
    ∀ (l acc : List α), (l.foldl (binInsert lt) acc).Perm (acc ++ l)
  | [], acc => by simp
  | x :: xs, acc => by
    have h1 := foldl_binInsert_perm lt xs (binInsert lt acc x)
    have h2 : (binInsert lt acc x ++ xs).Perm ((x :: acc) ++ xs) :=
      (binInsert_perm lt acc x).append_right xs
    exact (h1.trans h2).trans List.perm_middle.symm

theorem pySortAsc_perm (lt : α → α → Bool) (l : List α) : (pySortAsc lt l).Perm l := by
  simpa using foldl_binInsert_perm lt l []

theorem pySorted_perm (lt : α → α → Bool) (r : Bool) (l : List α) :
    (pySorted lt r l).Perm l := by
  cases r with
  | false => exact pySortAsc_perm lt l
  | true =>
    exact (List.reverse_perm _).trans ((pySortAsc_perm lt l.reverse).trans (List.reverse_perm l))

theorem binInsert_congr {lt lt' : α → α → Bool} (x : α) :
    ∀ (l : List α), (∀ y ∈ l, lt x y = lt' x y) → binInsert lt l x = binInsert lt' l x := by
  intro l
  induction l with
  | nil => intro _; rfl
  | cons y ys ih =>
    intro h
    simp only [binInsert]
    rw [h y (by simp)]
    split
    · rfl
    · rw [ih (fun z hz => h z (by simp [hz]))]

theorem foldl_binInsert_congr {lt lt' : α → α → Bool} :
    ∀ (l acc : List α), (∀ a ∈ acc ++ l, ∀ b ∈ acc ++ l, lt a b = lt' a b) →
      l.foldl (binInsert lt) acc = l.foldl (binInsert lt') acc
  | [], _ => fun _ => rfl
  | x :: xs, acc => fun h => by
    have hx : binInsert lt acc x = binInsert lt' acc x :=
      binInsert_congr x acc fun y hy =>
        h x (by simp) y (List.mem_append.mpr (Or.inl hy))
    have hsub : ∀ a ∈ binInsert lt' acc x ++ xs, a ∈ acc ++ x :: xs := by
      intro a ha
      rcases List.mem_append.mp ha with ha | ha
      · rcases List.mem_cons.mp ((binInsert_perm lt' acc x).mem_iff.mp ha) with rfl | ha2
        · exact List.mem_append.mpr (Or.inr (by simp))
        · exact List.mem_append.mpr (Or.inl ha2)
      · exact List.mem_append.mpr (Or.inr (by simp [ha]))
    calc (x :: xs).foldl (binInsert lt) acc
        = xs.foldl (binInsert lt) (binInsert lt acc x) := rfl
      _ = xs.foldl (binInsert lt) (binInsert lt' acc x) := by rw [hx]
      _ = xs.foldl (binInsert lt') (binInsert lt' acc x) :=
          foldl_binInsert_congr xs _ (fun a ha b hb => h a (hsub a ha) b (hsub b hb))

theorem pairwise_binInsert {κ : Type} [LinearOrder κ] (k : α → κ) (x : α) :
    ∀ (l : List α), l.Pairwise (fun a b => k a ≤ k b) →
      (binInsert (fun a b => decide (k a < k b)) l x).Pairwise (fun a b => k a ≤ k b) := by
  intro l
  induction l with
  | nil => intro _; simp [binInsert]
  | cons y ys ih =>
    intro h
    rcases List.pairwise_cons.mp h with ⟨hy, hys⟩
    simp only [binInsert]
    split
    case isTrue hxy =>
      have hxy' : k x < k y := of_decide_eq_true hxy
      refine List.pairwise_cons.mpr ⟨?_, h⟩
      intro z hz
      rcases List.mem_cons.mp hz with rfl | hz2
      · exact le_of_lt hxy'
      · exact le_of_lt (lt_of_lt_of_le hxy' (hy z hz2))
    case isFalse hxy =>
      have hyx : k y ≤ k x := le_of_not_lt fun hc => hxy (decide_eq_true hc)
      refine List.pairwise_cons.mpr ⟨?_, ih hys⟩
      intro z hz
      rcases List.mem_cons.mp ((binInsert_perm _ ys x).mem_iff.mp hz) with rfl | hz2
      · exact hyx
      · exact hy z hz2

theorem pairwise_foldl_binInsert {κ : Type} [LinearOrder κ] (k : α → κ) :
    ∀ (l acc : List α), acc.Pairwise (fun a b => k a ≤ k b) →
      (l.foldl (binInsert (fun a b => decide (k a < k b))) acc).Pairwise
        (fun a b => k a ≤ k b)
  | [], _ => fun h => h
  | x :: xs, acc => fun h =>
    pairwise_foldl_binInsert k xs _ (pairwise_binInsert k x acc h)

theorem pairwise_pySortAsc {κ : Type} [LinearOrder κ] (k : α → κ) (l : List α) :
    (pySortAsc (fun a b => decide (k a < k b)) l).Pairwise (fun a b => k a ≤ k b) :=
  pairwise_foldl_binInsert k l [] List.Pairwise.nil

theorem pairwise_pySortedDesc {κ : Type} [LinearOrder κ] (k : α → κ) (l : List α) :
    (pySorted (fun a b => decide (k a < k b)) true l).Pairwise (fun a b => k b ≤ k a) :=
  List.pairwise_reverse.mpr (pairwise_pySortAsc k l.reverse)

theorem eq_of_perm_of_pairwise_strictDesc {κ : Type} [LinearOrder κ] (k : α → κ)
    {l₁ l₂ : List α} (hp : l₁.Perm l₂)
    (h₁ : l₁.Pairwise fun a b => k b < k a)
    (h₂ : l₂.Pairwise fun a b => k b < k a) : l₁ = l₂ := by
  have anti : IsAntisymm α (fun a b => k b < k a ∨ a = b) := by
    constructor
    intro a b hab hba
    rcases hab with hab | hab
    · rcases hba with hba | hba
      · exact absurd hba (lt_asymm hab)
      · exact hba.symm
    · exact hab
  exact @List.eq_of_perm_of_sorted α (fun a b => k b < k a ∨ a = b) anti l₁ l₂ hp
    (h₁.imp Or.inl) (h₂.imp Or.inl)

/-- On rows whose 3-month put IV is present, the NaN-aware comparison used by the
single-quote pre-sort is the plain key comparison. -/
theorem obsLt_eq_keyLt {a b : Obs} (ha : a.put_imp_vol_3m.isSome)
    (hb : b.put_imp_vol_3m.isSome) :
    obsLt a b = decide (a.put_imp_vol_3m.getD 0 < b.put_imp_vol_3m.getD 0) := by
  rcases Option.isSome_iff_exists.mp ha with ⟨x, hx⟩
  rcases Option.isSome_iff_exists.mp hb with ⟨y, hy⟩
  simp [obsLt, optLtPy, hx, hy]

/-- The key theorem behind order invariance: when every row has a 3-month put IV and
those IVs are pairwise distinct, the descending pre-sort of `calculate_fcn` sends any
two permutations of the same rows to the same list. -/
theorem preSort_eq_of_perm {l₁ l₂ : List Obs}
    (hperm : l₁.Perm l₂)
    (hpres : ∀ o ∈ l₁, o.put_imp_vol_3m.isSome)
    (hdist : l₁.Pairwise fun a b => a.put_imp_vol_3m ≠ b.put_imp_vol_3m) :
    pySorted obsLt true l₁ = pySorted obsLt true l₂ := by
  have hpres₂ : ∀ o ∈ l₂, o.put_imp_vol_3m.isSome := fun o ho =>
    hpres o (hperm.mem_iff.mpr ho)
  have hcong : ∀ (l : List Obs), (∀ o ∈ l, o.put_imp_vol_3m.isSome) →
      pySorted obsLt true l =
        pySorted (fun a b => decide (a.put_imp_vol_3m.getD 0 < b.put_imp_vol_3m.getD 0)) true l := by
    intro l hl
    show (pySortAsc obsLt l.reverse).reverse = (pySortAsc _ l.reverse).reverse
    congr 1
    apply foldl_binInsert_congr
    intro a ha b hb
    simp only [List.nil_append, List.mem_reverse] at ha hb
    exact obsLt_eq_keyLt (hl a ha) (hl b hb)
  have hkdist : l₁.Pairwise fun a b => a.put_imp_vol_3m.getD 0 ≠ b.put_imp_vol_3m.getD 0 := by
    refine hdist.imp_of_mem ?_
    intro a b ha hb hne hkeq
    rcases Option.isSome_iff_exists.mp (hpres a ha) with ⟨x, hx⟩
    rcases Option.isSome_iff_exists.mp (hpres b hb) with ⟨y, hy⟩
    apply hne
    rw [hx, hy]
    rw [hx, hy] at hkeq
    simpa using hkeq
  have hperm₁ := pySorted_perm
    (fun a b : Obs => decide (a.put_imp_vol_3m.getD 0 < b.put_imp_vol_3m.getD 0)) true l₁
  have hperm₂ := pySorted_perm
    (fun a b : Obs => decide (a.put_imp_vol_3m.getD 0 < b.put_imp_vol_3m.getD 0)) true l₂
  have hkdistS₁ := (hperm₁.pairwise_iff (fun h => Ne.symm h)).mpr hkdist
  have hkdist₂ := (hperm.pairwise_iff (fun h => Ne.symm h)).mp hkdist
  have hkdistS₂ := (hperm₂.pairwise_iff (fun h => Ne.symm h)).mpr hkdist₂
  have hsorted₁ := pairwise_pySortedDesc (fun o : Obs => o.put_imp_vol_3m.getD 0) l₁
  have hsorted₂ := pairwise_pySortedDesc (fun o : Obs => o.put_imp_vol_3m.getD 0) l₂
  have hstrict₁ := (hsorted₁.and hkdistS₁).imp
    (fun h => lt_of_le_of_ne h.1 (Ne.symm h.2))
  have hstrict₂ := (hsorted₂.and hkdistS₂).imp
    (fun h => lt_of_le_of_ne h.1 (Ne.symm h.2))
  rw [hcong l₁ hpres, hcong l₂ hpres₂]
  exact eq_of_perm_of_pairwise_strictDesc (fun o : Obs => o.put_imp_vol_3m.getD 0)
    ((hperm₁.trans hperm).trans hperm₂.symm) hstrict₁ hstrict₂

/-- Claim C1 (corrected): for any deal terms and any permutation of a list of 1–4
observations whose 3-month put IVs are all present and pairwise distinct, the
single-quote path yields an identical ranked, padded basket and an identical
feature dictionary (every feature, the raw per-underlying suffix columns included).
Without the distinctness proviso the claim fails (see the counterexample): the
stable sorts break ties by input order. -/
theorem fcn_c1_order_invariance (sqrtFn : ℚ → ℚ) (inp : InputData) (l₁ l₂ : List Obs)
    (hperm : l₁.Perm l₂) (_hlen₁ : 1 ≤ l₁.length) (_hlen₂ : l₁.length ≤ 4)
    (hpres : ∀ o ∈ l₁, o.put_imp_vol_3m.isSome)
    (hdist : l₁.Pairwise fun a b => a.put_imp_vol_3m ≠ b.put_imp_vol_3m) :
    padTo4 (pySorted obsLt true l₁) = padTo4 (pySorted obsLt true l₂) ∧
    singleQuoteFeatures sqrtFn inp l₁ = singleQuoteFeatures sqrtFn inp l₂ := by
  have h := preSort_eq_of_perm hperm hpres hdist
  exact ⟨by rw [h], by unfold singleQuoteFeatures; rw [h]⟩

theorem fcn_c1_order_invariance_witness :
    padTo4 (pySorted obsLt true [obsLo, obsHi]) = padTo4 (pySorted obsLt true [obsHi, obsLo]) ∧
    singleQuoteFeatures sqrt0 inpEx [obsLo, obsHi] = singleQuoteFeatures sqrt0 inpEx [obsHi, obsLo] :=
  fcn_c1_order_invariance sqrt0 inpEx [obsLo, obsHi] [obsHi, obsLo]
    (by decide) (by decide) (by decide) (by decide) (by decide)

set_option maxRecDepth 100000 in
/-- Claim C1 counterexample: two observations with the same 3-month put IV (30) but
different prices.  The two input orders are permutations of each other and the deal
terms are valid, yet the feature dictionaries differ: both the first raw suffix
column `PX_LAST` and the ranked column `PX_LAST_Rank_1` carry the first-listed
stock's price. -/
theorem fcn_c1_counterexample :
    ([obsTieA, obsTieB] : List Obs).Perm [obsTieB, obsTieA] ∧
    singleQuoteFeatures sqrt0 inpEx [obsTieA, obsTieB] "PX_LAST" = some 100 ∧
    singleQuoteFeatures sqrt0 inpEx [obsTieB, obsTieA] "PX_LAST" = some 200 ∧
    singleQuoteFeatures sqrt0 inpEx [obsTieA, obsTieB] "PX_LAST_Rank_1" = some 100 ∧
    singleQuoteFeatures sqrt0 inpEx [obsTieB, obsTieA] "PX_LAST_Rank_1" = some 200 ∧
    singleQuoteFeatures sqrt0 inpEx [obsTieA, obsTieB] ≠
      singleQuoteFeatures sqrt0 inpEx [obsTieB, obsTieA] := by
  refine ⟨by decide, by decide, by decide, by decide, by decide, fun h => ?_⟩
  exact absurd (congrFun h "PX_LAST") (by decide)

/-- Claim C2: the basket ranking (`iv_pairs`, sorted by 3-month put IV descending,
missing IVs as `-inf` = `⊥`) puts every IV-less entry after every entry that has an
IV, and adjacent present pairs are in weakly descending IV order. -/
theorem fcn_c2_ranking_descending (f : FeatMap) :
    ((sortedPairs f).Pairwise fun a b => a.2 = ⊥ → b.2 = ⊥) ∧
    List.Chain' (fun a b => ∀ x y : ℚ, a.2 = (x : WithBot ℚ) → b.2 = (y : WithBot ℚ) → y ≤ x)
      (sortedPairs f) := by
  have hp : (sortedPairs f).Pairwise fun a b => b.2 ≤ a.2 :=
    pairwise_pySortedDesc Prod.snd (ivPairs f)
  constructor
  · exact hp.imp fun h hbot => le_bot_iff.mp (hbot ▸ h)
  · refine (hp.imp ?_).chain'
    intro a b h x y hx hy
    rw [hx, hy] at h
    exact_mod_cast h

theorem fcn_c2_ranking_descending_witness :
    (((sortedPairs fun _ => none)).Pairwise fun a b => a.2 = ⊥ → b.2 = ⊥) ∧
    List.Chain' (fun a b => ∀ x y : ℚ, a.2 = (x : WithBot ℚ) → b.2 = (y : WithBot ℚ) → y ≤ x)
      (sortedPairs fun _ => none) :=
  fcn_c2_ranking_descending fun _ => none

/-- Claim C4: the `KI_Risk_Score` feature is exactly
(max present 3-month put IV / 43.5) × (KI barrier / 100); `43.5` is the hard-coded
serving-time copy of the training-time mean (`mean_worst_iv = 43.5`), a literal in
the formula below, so the score is a function of the basket's own rows and the
deal's KI barrier alone — it cannot depend on other combinations or requests.
When no basket member has an IV the score is `NaN` (`none`). -/
theorem fcn_c4_ki_risk_score (sqrtFn : ℚ → ℚ) (inp : InputData) (l : List (Option Obs)) :
    computeFeatures sqrtFn inp l "KI_Risk_Score" =
      (ivValuesOf l).max?.map (fun w => (w / 43.5) * (inp.ki_barrier / 100)) ∧
    ∀ w, (ivValuesOf l).max? = some w →
      computeFeatures sqrtFn inp l "KI_Risk_Score" =
        some ((w / 43.5) * (inp.ki_barrier / 100)) := by
  refine ⟨rfl, fun w hw => ?_⟩
  have h : computeFeatures sqrtFn inp l "KI_Risk_Score" =
      (ivValuesOf l).max?.map (fun w => (w / 43.5) * (inp.ki_barrier / 100)) := rfl
  rw [h, hw]
  rfl

set_option maxRecDepth 100000 in
theorem fcn_c4_ki_risk_score_witness :
    computeFeatures sqrt0 inpEx (padTo4 [obsHi, obsLo]) "KI_Risk_Score" =
      some ((40 / 43.5) * ((60 : ℚ) / 100)) :=
  (fcn_c4_ki_risk_score sqrt0 inpEx (padTo4 [obsHi, obsLo])).2 40 (by decide)

/-- Claim C8: projecting any computed feature mapping onto any schema yields one
entry per schema column, in schema order (so nothing outside the schema survives),
each entry carrying the mapping's value for that column — `none` (NaN) when the
mapping does not provide it. -/
theorem fcn_c8_schema_projection (fm : FeatMap) (schema : List String) :
    (reindex fm schema).map Prod.fst = schema ∧
    List.Forall₂ (fun p c => p.1 = c ∧ p.2 = fm c) (reindex fm schema) schema := by
  constructor
  · simp only [reindex, List.map_map]
    exact List.map_id'' (fun _ => rfl) schema
  · induction schema with
    | nil => exact List.Forall₂.nil
    | cons c cs ih => exact List.Forall₂.cons ⟨rfl, rfl⟩ ih

theorem fcn_c8_schema_projection_witness :
    (reindex (fun _ => none) ["Strike (%)", "Fee"]).map Prod.fst = ["Strike (%)", "Fee"] ∧
    List.Forall₂ (fun p c => p.1 = c ∧ p.2 = (fun _ => (none : Option ℚ)) c)
      (reindex (fun _ => none) ["Strike (%)", "Fee"]) ["Strike (%)", "Fee"] :=
  fcn_c8_schema_projection (fun _ => none) ["Strike (%)", "Fee"]

/-- Evaluation of the single-quote endpoint on its success path. -/
theorem calculateFcn_eval {m : ModelFn} {fc : List String} {sqrtFn : ℚ → ℚ}
    {ivDb : String → Option SymTable} {dates : List String} {req : FCNRequest}
    {table : SymTable} {ivList : List Obs} {stockInfo : List (String × StockInfo)}
    (hdates : dates ≠ []) (hki : req.knockInPrice < req.strikePrice)
    (hko : req.strikePrice < req.knockOutPrice)
    (htab : ivDb (resolvePricingDate req.pricingDate dates) = some table)
    (hcol : collectStocks table req.stocks = .ok (ivList, stockInfo)) :
    calculateFcn (some m) fc sqrtFn ivDb dates req =
      .ok (singleSuccess m fc sqrtFn dates req ivList stockInfo) := by
  have hki' : ¬(req.knockInPrice ≥ req.strikePrice) := fun hc => absurd hki (not_lt.mpr hc)
  have hko' : ¬(req.knockOutPrice ≤ req.strikePrice) := not_le.mpr hko
  simp only [calculateFcn, if_neg hdates, if_neg hki', if_neg hko', htab, hcol]

/-- Evaluation of the batch endpoint on its success path. -/
theorem batchCalculateFcn_eval {m : ModelFn} {fc : List String} {sqrtFn : ℚ → ℚ}
    {ivDb : String → Option SymTable} {dates : List String} {breq : BatchFCNRequest}
    {table : SymTable}
    (hdates : dates ≠ []) (hki : breq.knockInPrice < breq.strikePrice)
    (hko : breq.strikePrice < breq.knockOutPrice)
    (hvs : validSizesOf breq.basketSizes ≠ [])
    (htab : ivDb (resolvePricingDate breq.pricingDate dates) = some table)
    (hstk : validStocksOf table breq.stockPool ≠ []) :
    batchCalculateFcn (some m) fc sqrtFn ivDb dates breq =
      .ok (batchSuccess m fc sqrtFn table dates breq) := by
  have hki' : ¬(breq.knockInPrice ≥ breq.strikePrice) := fun hc => absurd hki (not_lt.mpr hc)
  have hko' : ¬(breq.knockOutPrice ≤ breq.strikePrice) := not_le.mpr hko
  simp only [batchCalculateFcn, if_neg hdates, if_neg hki', if_neg hko', if_neg hvs, htab,
    if_neg hstk]

/-- Claim C6: when the knock-in barrier is ≥ the strike, or (failing that) the
knock-out barrier is ≤ the strike, both endpoints return the corresponding 400
validation error.  The model function, feature schema, sqrt and snapshot store are
universally quantified and absent from the returned value: no feature computation
or prediction contributes to the result.  (The check runs after the model/dates
guards, hence the `dates ≠ []` hypothesis.) -/
theorem fcn_c6_validation_rejection (m : ModelFn) (featureCols : List String)
    (sqrtFn : ℚ → ℚ) (ivDb : String → Option SymTable) (dates : List String)
    (hdates : dates ≠ []) (req : FCNRequest) (breq : BatchFCNRequest) :
    (req.knockInPrice ≥ req.strikePrice →
      calculateFcn (some m) featureCols sqrtFn ivDb dates req =
        .error (.http 400 "保護價必須低於轉換價")) ∧
    (req.knockInPrice < req.strikePrice → req.knockOutPrice ≤ req.strikePrice →
      calculateFcn (some m) featureCols sqrtFn ivDb dates req =
        .error (.http 400 "上限價必須高於轉換價")) ∧
    (breq.knockInPrice ≥ breq.strikePrice →
      batchCalculateFcn (some m) featureCols sqrtFn ivDb dates breq =
        .error (.http 400 "保護價必須低於轉換價")) ∧
    (breq.knockInPrice < breq.strikePrice → breq.knockOutPrice ≤ breq.strikePrice →
      batchCalculateFcn (some m) featureCols sqrtFn ivDb dates breq =
        .error (.http 400 "上限價必須高於轉換價")) := by
  refine ⟨fun h => ?_, fun h1 h2 => ?_, fun h => ?_, fun h1 h2 => ?_⟩
  · simp only [calculateFcn, if_neg hdates, if_pos h]
  · have h1' : ¬(req.knockInPrice ≥ req.strikePrice) := fun hc => absurd h1 (not_lt.mpr hc)
    simp only [calculateFcn, if_neg hdates, if_neg h1', if_pos h2]
  · simp only [batchCalculateFcn, if_neg hdates, if_pos h]
  · have h1' : ¬(breq.knockInPrice ≥ breq.strikePrice) := fun hc => absurd h1 (not_lt.mpr hc)
    simp only [batchCalculateFcn, if_neg hdates, if_neg h1', if_pos h2]

theorem fcn_c6_validation_rejection_witness :
    calculateFcn (some modelEx) ["PX_LAST"] sqrt0 ivDbEx ["20250101"]
        { reqEx with knockInPrice := 90, strikePrice := 85 } =
      .error (.http 400 "保護價必須低於轉換價") ∧
    batchCalculateFcn (some modelEx) ["PX_LAST"] sqrt0 ivDbEx ["20250101"]
        { breqEx with knockOutPrice := 90, strikePrice := 95 } =
      .error (.http 400 "上限價必須高於轉換價") :=
  ⟨(fcn_c6_validation_rejection modelEx ["PX_LAST"] sqrt0 ivDbEx ["20250101"] (by decide)
      { reqEx with knockInPrice := 90, strikePrice := 85 } breqEx).1 (by decide),
   (fcn_c6_validation_rejection modelEx ["PX_LAST"] sqrt0 ivDbEx ["20250101"] (by decide)
      reqEx { breqEx with knockOutPrice := 90, strikePrice := 95 }).2.2.2
      (by decide) (by decide)⟩

set_option maxRecDepth 100000 in
/-- Claim C10: `non_call` is silently clamped to `min(nonCallPeriods, tenor)` before
feature computation; a request with `nonCallPeriods ≥ tenor` is therefore processed
(never rejected) with `non_call = tenor`, which makes `No_KO_Flag = 1` and
`Callable_Period = 0`, in both the single-quote and batch endpoints. -/
theorem fcn_c10_noncall_clamped (m : ModelFn) (featureCols : List String)
    (sqrtFn : ℚ → ℚ) (ivDb : String → Option SymTable) (dates : List String) :
    (∀ (n period : ℕ), period ≤ n → effectiveNonCall (some n) period = period) ∧
    (∀ (inp : InputData) (l : List (Option Obs)), inp.non_call_periods = inp.tenor →
      computeFeatures sqrtFn inp l "No_KO_Flag" = some 1 ∧
      computeFeatures sqrtFn inp l "Callable_Period" = some 0) ∧
    (∀ (req : FCNRequest) (table : SymTable) (ivList : List Obs)
        (stockInfo : List (String × StockInfo)),
      dates ≠ [] →
      req.knockInPrice < req.strikePrice → req.strikePrice < req.knockOutPrice →
      ivDb (resolvePricingDate req.pricingDate dates) = some table →
      collectStocks table req.stocks = .ok (ivList, stockInfo) →
      ∀ n, req.nonCallPeriods = some n → req.period ≤ n →
        ∃ resp, calculateFcn (some m) featureCols sqrtFn ivDb dates req = .ok resp ∧
          resp.input_params.non_call_periods = req.period ∧
          resp.input_params.no_ko = true) ∧
    (∀ (breq : BatchFCNRequest) (table : SymTable),
      dates ≠ [] →
      breq.knockInPrice < breq.strikePrice → breq.strikePrice < breq.knockOutPrice →
      validSizesOf breq.basketSizes ≠ [] →
      ivDb (resolvePricingDate breq.pricingDate dates) = some table →
      validStocksOf table breq.stockPool ≠ [] →
      ∀ n, breq.nonCallPeriods = some n → breq.period ≤ n →
        ∃ resp, batchCalculateFcn (some m) featureCols sqrtFn ivDb dates breq = .ok resp ∧
          resp.params.nonCallPeriods = breq.period ∧
          resp.params.noKO = true) := by
  have hclamp : ∀ (n period : ℕ), period ≤ n → effectiveNonCall (some n) period = period := by
    intro n period hnp
    unfold effectiveNonCall
    by_cases h0 : n = 0
    · subst h0
      have : period = 0 := Nat.le_zero.mp hnp
      simp [this]
    · simp only [if_neg h0]
      exact min_eq_right hnp
  refine ⟨hclamp, fun inp l hnc => ?_, fun req table ivList stockInfo hdates hki hko htab hcol n
    hn hge => ?_, fun breq table hdates hki hko hvs htab hstk n hn hge => ?_⟩
  · constructor
    · have h : computeFeatures sqrtFn inp l "No_KO_Flag" =
          some (if inp.non_call_periods = inp.tenor then 1 else 0) := rfl
      rw [h, if_pos hnc]
    · have h : computeFeatures sqrtFn inp l "Callable_Period" =
          some ((inp.tenor : ℚ) - (inp.non_call_periods : ℚ)) := rfl
      rw [h, hnc]
      norm_num
  · refine ⟨_, calculateFcn_eval hdates hki hko htab hcol, ?_, ?_⟩
    · show effectiveNonCall req.nonCallPeriods req.period = req.period
      rw [hn]; exact hclamp n req.period hge
    · show decide (effectiveNonCall req.nonCallPeriods req.period = req.period) = true
      rw [hn, hclamp n req.period hge]
      simp
  · refine ⟨_, batchCalculateFcn_eval hdates hki hko hvs htab hstk, ?_, ?_⟩
    · show effectiveNonCall breq.nonCallPeriods breq.period = breq.period
      rw [hn]; exact hclamp n breq.period hge
    · show decide (effectiveNonCall breq.nonCallPeriods breq.period = breq.period) = true
      rw [hn, hclamp n breq.period hge]
      simp

theorem fcn_c10_noncall_clamped_witness :
    effectiveNonCall (some 12) 6 = 6 ∧
    computeFeatures sqrt0 (mkInputData 80 100 60 6 99 "EKI" 6) [] "No_KO_Flag" = some 1 ∧
    computeFeatures sqrt0 (mkInputData 80 100 60 6 99 "EKI" 6) [] "Callable_Period" = some 0 ∧
    (∃ resp, calculateFcn (some modelEx) ["PX_LAST"] sqrt0 ivDbEx ["20250101"]
        { reqEx with nonCallPeriods := some 12 } = .ok resp ∧
      resp.input_params.non_call_periods = 6 ∧ resp.input_params.no_ko = true) ∧
    (∃ resp, batchCalculateFcn (some modelEx) ["PX_LAST"] sqrt0 ivDbEx ["20250101"]
        { breqEx with nonCallPeriods := some 12 } = .ok resp ∧
      resp.params.nonCallPeriods = 6 ∧ resp.params.noKO = true) := by
  have H := fcn_c10_noncall_clamped modelEx ["PX_LAST"] sqrt0 ivDbEx ["20250101"]
  exact ⟨H.1 12 6 (by decide),
    (H.2.1 (mkInputData 80 100 60 6 99 "EKI" 6) [] rfl).1,
    (H.2.1 (mkInputData 80 100 60 6 99 "EKI" 6) [] rfl).2,
    H.2.2.1 { reqEx with nonCallPeriods := some 12 } tableEx [obsHi, obsLo]
      [("AAA", ⟨some 1, some 40, none⟩), ("BBB", ⟨some 2, some 20, none⟩)]
      (by decide) (by decide) (by decide) rfl rfl 12 rfl (by decide),
    H.2.2.2 { breqEx with nonCallPeriods := some 12 } tableEx
      (by decide) (by decide) (by decide) (by decide) rfl (by decide) 12 rfl (by decide)⟩

/-! ## Combinations and dict-key lemmas -/

theorem length_combinations : ∀ (k : ℕ) (l : List α),
    (combinations k l).length = l.length.choose k
  | 0, l => by simp [combinations]
  | k + 1, [] => by simp [combinations]
  | k + 1, x :: xs => by
    simp only [combinations, List.length_append, List.length_map,
      length_combinations k xs, length_combinations (k + 1) xs, List.length_cons,
      Nat.choose_succ_succ]

theorem mem_combinations_sublist : ∀ {k : ℕ} {l c : List α},
    c ∈ combinations k l → c.Sublist l ∧ c.length = k
  | 0, l, c, h => by
    simp only [combinations, List.mem_singleton] at h
    subst h
    exact ⟨List.nil_sublist l, rfl⟩
  | k + 1, [], c, h => by simp [combinations] at h
  | k + 1, x :: xs, c, h => by
    simp only [combinations, List.mem_append, List.mem_map] at h
    rcases h with ⟨c', hc', rfl⟩ | h
    · obtain ⟨hs, hl⟩ := mem_combinations_sublist hc'
      exact ⟨hs.cons₂ x, by simp [hl]⟩
    · obtain ⟨hs, hl⟩ := mem_combinations_sublist h
      exact ⟨hs.cons x, hl⟩

theorem combinations_pairwise_not_perm :
    ∀ (k : ℕ) {l : List α}, l.Nodup →
      (combinations k l).Pairwise fun c₁ c₂ => ¬ c₁.Perm c₂
  | 0, l, _ => by simp [combinations]
  | k + 1, [], _ => by simp [combinations]
  | k + 1, x :: xs, hnd => by
    rcases List.nodup_cons.mp hnd with ⟨hx, hxs⟩
    simp only [combinations]
    refine List.pairwise_append.mpr
      ⟨?_, combinations_pairwise_not_perm (k + 1) hxs, ?_⟩
    · refine List.pairwise_map.mpr ?_
      exact (combinations_pairwise_not_perm k hxs).imp fun h hp => h hp.cons_inv
    · intro a ha b hb hperm
      rcases List.mem_map.mp ha with ⟨c₁, _, rfl⟩
      have hbx : x ∈ b := hperm.mem_iff.mp (by simp)
      exact hx ((mem_combinations_sublist hb).1.subset hbx)

theorem mem_foldl_dedup (s : String) :
    ∀ (l acc : List String),
      s ∈ l.foldl (fun acc x => if x ∈ acc then acc else acc ++ [x]) acc ↔ s ∈ acc ∨ s ∈ l
  | [], acc => by simp
  | x :: xs, acc => by
    rw [List.foldl_cons, mem_foldl_dedup s xs]
    by_cases hx : x ∈ acc
    · rw [if_pos hx]
      constructor
      · rintro (h | h)
        · exact Or.inl h
        · exact Or.inr (List.mem_cons_of_mem x h)
      · rintro (h | h)
        · exact Or.inl h
        · rcases List.mem_cons.mp h with rfl | h
          · exact Or.inl hx
          · exact Or.inr h
    · rw [if_neg hx]
      constructor
      · rintro (h | h)
        · rcases List.mem_append.mp h with h | h
          · exact Or.inl h
          · exact Or.inr (List.mem_cons.mpr (Or.inl (List.mem_singleton.mp h)))
        · exact Or.inr (List.mem_cons_of_mem x h)
      · rintro (h | h)
        · exact Or.inl (List.mem_append.mpr (Or.inl h))
        · rcases List.mem_cons.mp h with rfl | h
          · exact Or.inl (List.mem_append.mpr (Or.inr (List.mem_singleton.mpr rfl)))
          · exact Or.inr h

theorem nodup_foldl_dedup :
    ∀ (l acc : List String), acc.Nodup →
      (l.foldl (fun acc x => if x ∈ acc then acc else acc ++ [x]) acc).Nodup
  | [], _ => fun h => h
  | x :: xs, acc => fun h => by
    rw [List.foldl_cons]
    by_cases hx : x ∈ acc
    · rw [if_pos hx]; exact nodup_foldl_dedup xs acc h
    · rw [if_neg hx]
      refine nodup_foldl_dedup xs _ ?_
      rw [List.nodup_append]
      exact ⟨h, List.nodup_singleton x,
        fun b hb hbx => hx ((List.mem_singleton.mp hbx) ▸ hb)⟩

theorem mem_dictKeysFirst {s : String} {l : List String} :
    s ∈ dictKeysFirst l ↔ s ∈ l := by
  unfold dictKeysFirst
  rw [mem_foldl_dedup]
  simp

theorem nodup_dictKeysFirst (l : List String) : (dictKeysFirst l).Nodup :=
  nodup_foldl_dedup l [] List.Pairwise.nil

theorem dictKeysFirst_eq_nil {l : List String} : dictKeysFirst l = [] ↔ l = [] := by
  constructor
  · intro h
    cases l with
    | nil => rfl
    | cons x xs =>
      exfalso
      have hx : x ∈ dictKeysFirst (x :: xs) := mem_dictKeysFirst.mpr (by simp)
      rw [h] at hx
      exact List.not_mem_nil x hx
  · rintro rfl; rfl

theorem mem_validStocksOf {table : SymTable} {pool : List String} {s : String} :
    s ∈ validStocksOf table pool ↔ s ∈ pool ∧ (table s).isSome := by
  unfold validStocksOf
  rw [mem_dictKeysFirst, List.mem_filter]

theorem nodup_validStocksOf (table : SymTable) (pool : List String) :
    (validStocksOf table pool).Nodup :=
  nodup_dictKeysFirst _

theorem validStocksOf_eq_nil {table : SymTable} {pool : List String} :
    validStocksOf table pool = [] ↔ ∀ s ∈ pool, table s = none := by
  unfold validStocksOf
  rw [dictKeysFirst_eq_nil, List.filter_eq_nil_iff]
  constructor
  · intro h s hs
    cases hts : table s with
    | none => rfl
    | some v =>
      have h2 := h s hs
      rw [hts] at h2
      simp at h2
  · intro h s hs
    simp [h s hs]

/-! ## Python min lemmas -/

theorem foldl_min_le_init : ∀ (xs : List ℕ) (x : ℕ), xs.foldl min x ≤ x
  | [], x => le_refl x
  | y :: ys, x => le_trans (foldl_min_le_init ys (min x y)) (min_le_left x y)

theorem foldl_min_le_mem : ∀ (xs : List ℕ) (x y : ℕ), y ∈ xs → xs.foldl min x ≤ y
  | [], _, _, h => absurd h (List.not_mem_nil _)
  | z :: zs, x, y, h => by
    rcases List.mem_cons.mp h with rfl | h
    · exact le_trans (foldl_min_le_init zs (min x y)) (min_le_right x y)
    · exact foldl_min_le_mem zs (min x z) y h

theorem foldl_min_mem : ∀ (xs : List ℕ) (x : ℕ), xs.foldl min x = x ∨ xs.foldl min x ∈ xs
  | [], _ => Or.inl rfl
  | y :: ys, x => by
    rcases foldl_min_mem ys (min x y) with h | h
    · by_cases hxy : x ≤ y
      · left; rw [List.foldl_cons, h, min_eq_left hxy]
      · right
        rw [List.foldl_cons, h, min_eq_right (le_of_not_le hxy)]
        exact List.mem_cons_self y ys
    · right; exact List.mem_cons_of_mem y h

theorem pyMinNat_le {l : List ℕ} (x : ℕ) (hx : x ∈ l) : pyMinNat l ≤ x := by
  cases l with
  | nil => cases hx
  | cons y ys =>
    rcases List.mem_cons.mp hx with rfl | h
    · exact foldl_min_le_init ys x
    · exact foldl_min_le_mem ys y x h

theorem pyMinNat_mem {l : List ℕ} (h : l ≠ []) : pyMinNat l ∈ l := by
  cases l with
  | nil => exact absurd rfl h
  | cons y ys =>
    rcases foldl_min_mem ys y with h2 | h2
    · have hpy : pyMinNat (y :: ys) = y := h2
      rw [hpy]
      exact List.mem_cons_self y ys
    · exact List.mem_cons_of_mem y h2

/-! ## Quote pipeline lemmas -/

theorem annotateBoost_stocks (a : ℕ → Option ℚ) (ms : ℕ) (q : Quote) :
    (annotateBoost a ms q).stocks = q.stocks := by
  unfold annotateBoost; split <;> rfl

theorem annotateBoost_basketSize (a : ℕ → Option ℚ) (ms : ℕ) (q : Quote) :
    (annotateBoost a ms q).basketSize = q.basketSize := by
  unfold annotateBoost; split <;> rfl

theorem annotateBoost_couponRate (a : ℕ → Option ℚ) (ms : ℕ) (q : Quote) :
    (annotateBoost a ms q).couponRate = q.couponRate := by
  unfold annotateBoost; split <;> rfl

theorem annotateBoost_riskLevel (a : ℕ → Option ℚ) (ms : ℕ) (q : Quote) :
    (annotateBoost a ms q).riskLevel = q.riskLevel := by
  unfold annotateBoost; split <;> rfl

theorem annotateBoost_distanceToKI (a : ℕ → Option ℚ) (ms : ℕ) (q : Quote) :
    (annotateBoost a ms q).distanceToKI = q.distanceToKI := by
  unfold annotateBoost; split <;> rfl

theorem mem_assignIds : ∀ {n : ℕ} {l : List Quote} {q : Quote}, q ∈ assignIds n l →
    ∃ q' ∈ l, ∃ s, q = { q' with id := s }
  | _, [], q, h => absurd h (List.not_mem_nil q)
  | n, q₀ :: rest, q, h => by
    rcases List.mem_cons.mp h with rfl | h
    · exact ⟨q₀, by simp, _, rfl⟩
    · rcases mem_assignIds h with ⟨q', hq', s, rfl⟩
      exact ⟨q', by simp [hq'], s, rfl⟩

theorem assignIds_filter_map_proj {β : Type} (p : Quote → Bool) (g : Quote → β)
    (hp : ∀ (q : Quote) (s : String), p { q with id := s } = p q)
    (hg : ∀ (q : Quote) (s : String), g { q with id := s } = g q) :
    ∀ (n : ℕ) (l : List Quote),
      ((assignIds n l).filter p).map g = (l.filter p).map g
  | _, [] => rfl
  | n, q :: rest => by
    have hrec := assignIds_filter_map_proj p g hp hg (n + 1) rest
    simp only [assignIds, List.filter_cons, hp]
    by_cases hq : p q = true
    · rw [if_pos hq, if_pos hq]
      simp only [List.map_cons, hg, hrec]
    · rw [if_neg hq, if_neg hq]
      exact hrec

/-- Membership in the final quote list of a batch response: every quote comes from a
combination of a requested valid size over the valid stocks, and its deal-term
fields are the request's. -/
theorem mem_batchSuccess_quotes {m : ModelFn} {fc : List String} {sqrtFn : ℚ → ℚ}
    {table : SymTable} {dates : List String} {breq : BatchFCNRequest} {q : Quote}
    (hq : q ∈ (batchSuccess m fc sqrtFn table dates breq).quotes) :
    ∃ k ∈ validSizesOf breq.basketSizes,
      ∃ combo ∈ combinations k (validStocksOf table breq.stockPool),
        q.stocks = combo ∧ q.basketSize = k ∧
        q.riskLevel = riskLevelOf breq.knockInPrice breq.strikePrice ∧
        q.distanceToKI = round1 (breq.strikePrice - breq.knockInPrice) := by
  rcases List.mem_map.mp hq with ⟨q₁, hq₁, rfl⟩
  have hperm := pySorted_perm (fun a b : Quote => decide (a.couponRate < b.couponRate)) true
    (assignIds 0 (batchQuotesRaw m fc sqrtFn table
      (mkInputData breq.strikePrice breq.knockOutPrice breq.knockInPrice breq.period
        breq.customFeeRate breq.kiType (effectiveNonCall breq.nonCallPeriods breq.period))
      (validSizesOf breq.basketSizes) (validStocksOf table breq.stockPool)))
  have hq₁' := hperm.mem_iff.mp hq₁
  rcases mem_assignIds hq₁' with ⟨q₂, hq₂, s, rfl⟩
  rcases List.mem_flatMap.mp hq₂ with ⟨k, hk, hq₃⟩
  by_cases hlen : (validStocksOf table breq.stockPool).length < k
  · rw [if_pos hlen] at hq₃
    exact absurd hq₃ (List.not_mem_nil _)
  · rw [if_neg hlen] at hq₃
    rcases List.mem_map.mp hq₃ with ⟨combo, hcombo, rfl⟩
    refine ⟨k, hk, combo, hcombo, ?_, ?_, ?_, ?_⟩
    · rw [annotateBoost_stocks]; rfl
    · rw [annotateBoost_basketSize]; rfl
    · rw [annotateBoost_riskLevel]; rfl
    · rw [annotateBoost_distanceToKI]; rfl

/-- Inversion of a successful batch call: all guards passed and the response is the
assembled success payload. -/
theorem batchCalculateFcn_ok_inv {m : ModelFn} {fc : List String} {sqrtFn : ℚ → ℚ}
    {ivDb : String → Option SymTable} {dates : List String} {breq : BatchFCNRequest}
    {resp : BatchResponse}
    (hok : batchCalculateFcn (some m) fc sqrtFn ivDb dates breq = .ok resp) :
    dates ≠ [] ∧ validSizesOf breq.basketSizes ≠ [] ∧
    ∃ table, ivDb (resolvePricingDate breq.pricingDate dates) = some table ∧
      validStocksOf table breq.stockPool ≠ [] ∧
      resp = batchSuccess m fc sqrtFn table dates breq := by
  simp only [batchCalculateFcn] at hok
  split at hok
  · exact Except.noConfusion hok
  rename_i h1
  split at hok
  · exact Except.noConfusion hok
  rename_i h2
  split at hok
  · exact Except.noConfusion hok
  rename_i h3
  split at hok
  · exact Except.noConfusion hok
  rename_i h4
  split at hok
  · exact Except.noConfusion hok
  rename_i table heq
  split at hok
  · exact Except.noConfusion hok
  rename_i h5
  exact ⟨h1, h4, table, heq, h5, (Except.ok.inj hok).symm⟩

/-- Claim C9 (corrected): in a batch response the risk level is a function of the
deal terms alone — "low" iff KI < 60 and strike > 85, otherwise "high" iff KI > 70
or strike < 70, otherwise "medium" — and every quote carries that same risk level
and the same distance-to-KI.  The stored distance is `round(strike − KI, 1)`, the
claim's "strike minus knock-in barrier" up to the code's one-decimal rounding
(see the counterexample for the exact-equality reading). -/
theorem fcn_c9_risk_level {m : ModelFn} {fc : List String} {sqrtFn : ℚ → ℚ}
    {ivDb : String → Option SymTable} {dates : List String} {breq : BatchFCNRequest}
    {resp : BatchResponse}
    (hok : batchCalculateFcn (some m) fc sqrtFn ivDb dates breq = .ok resp) :
    ((breq.knockInPrice < 60 ∧ 85 < breq.strikePrice) →
      riskLevelOf breq.knockInPrice breq.strikePrice = "low") ∧
    (¬(breq.knockInPrice < 60 ∧ 85 < breq.strikePrice) →
      (70 < breq.knockInPrice ∨ breq.strikePrice < 70) →
      riskLevelOf breq.knockInPrice breq.strikePrice = "high") ∧
    (¬(breq.knockInPrice < 60 ∧ 85 < breq.strikePrice) →
      ¬(70 < breq.knockInPrice ∨ breq.strikePrice < 70) →
      riskLevelOf breq.knockInPrice breq.strikePrice = "medium") ∧
    (∀ q ∈ resp.quotes,
      q.riskLevel = riskLevelOf breq.knockInPrice breq.strikePrice ∧
      q.distanceToKI = round1 (breq.strikePrice - breq.knockInPrice)) ∧
    (∀ q₁ ∈ resp.quotes, ∀ q₂ ∈ resp.quotes,
      q₁.riskLevel = q₂.riskLevel ∧ q₁.distanceToKI = q₂.distanceToKI) := by
  obtain ⟨h1, h4, table, heq, h5, rfl⟩ := batchCalculateFcn_ok_inv hok
  have hmem : ∀ q ∈ (batchSuccess m fc sqrtFn table dates breq).quotes,
      q.riskLevel = riskLevelOf breq.knockInPrice breq.strikePrice ∧
      q.distanceToKI = round1 (breq.strikePrice - breq.knockInPrice) := by
    intro q hq
    obtain ⟨k, _, combo, _, _, _, hrl, hd⟩ := mem_batchSuccess_quotes hq
    exact ⟨hrl, hd⟩
  refine ⟨fun h => by unfold riskLevelOf; rw [if_pos h],
    fun hn hh => by unfold riskLevelOf; rw [if_neg hn, if_pos hh],
    fun hn hn2 => by unfold riskLevelOf; rw [if_neg hn, if_neg hn2],
    hmem, ?_⟩
  intro q₁ hq₁ q₂ hq₂
  obtain ⟨ha, hb⟩ := hmem q₁ hq₁
  obtain ⟨hc, hd⟩ := hmem q₂ hq₂
  exact ⟨ha.trans hc.symm, hb.trans hd.symm⟩

set_option maxHeartbeats 4000000 in
set_option maxRecDepth 1000000 in
theorem fcn_c9_risk_level_witness :
    ∃ q, q ∈ (batchSuccess modelEx ["PX_LAST"] sqrt0 tableEx ["20250101"] breqEx).quotes ∧
      q.riskLevel = riskLevelOf breqEx.knockInPrice breqEx.strikePrice ∧
      q.distanceToKI = round1 (breqEx.strikePrice - breqEx.knockInPrice) := by
  have hne : (batchSuccess modelEx ["PX_LAST"] sqrt0 tableEx ["20250101"] breqEx).quotes ≠ [] := by
    decide
  exact ⟨_, List.head_mem hne,
    (fcn_c9_risk_level (@batchCalculateFcn_eval modelEx ["PX_LAST"] sqrt0 ivDbEx ["20250101"]
      breqEx tableEx
      (by decide) (by decide) (by decide) (by decide) rfl (by decide))).2.2.2.1 _
      (List.head_mem hne)⟩

/-! ## Filtering the raw batch quotes by size -/

theorem basketSize_mem_of_mem_batchQuotesRaw {predict : ModelFn} {fc : List String}
    {sqrtFn : ℚ → ℚ} {table : SymTable} {baseInput : InputData} {validSizes : List ℕ}
    {validStocks : List String} {q : Quote}
    (hq : q ∈ batchQuotesRaw predict fc sqrtFn table baseInput validSizes validStocks) :
    q.basketSize ∈ validSizes := by
  rcases List.mem_flatMap.mp hq with ⟨k, hk, hq₂⟩
  by_cases hlen : validStocks.length < k
  · rw [if_pos hlen] at hq₂
    exact absurd hq₂ (List.not_mem_nil _)
  · rw [if_neg hlen] at hq₂
    rcases List.mem_map.mp hq₂ with ⟨c, _, rfl⟩
    exact hk

theorem filter_batchQuotesRaw_not_mem {predict : ModelFn} {fc : List String}
    {sqrtFn : ℚ → ℚ} {table : SymTable} {baseInput : InputData} {validStocks : List String}
    {k : ℕ} {validSizes : List ℕ} (hk : k ∉ validSizes) :
    (batchQuotesRaw predict fc sqrtFn table baseInput validSizes validStocks).filter
      (fun q => decide (q.basketSize = k)) = [] := by
  rw [List.filter_eq_nil_iff]
  intro q hq
  have := basketSize_mem_of_mem_batchQuotesRaw hq
  simp only [decide_eq_true_eq]
  intro hbs
  exact hk (hbs ▸ this)

theorem filter_batchQuotesRaw_mem {predict : ModelFn} {fc : List String}
    {sqrtFn : ℚ → ℚ} {table : SymTable} {baseInput : InputData} {validStocks : List String}
    {k : ℕ} : ∀ {validSizes : List ℕ}, validSizes.count k = 1 →
    (batchQuotesRaw predict fc sqrtFn table baseInput validSizes validStocks).filter
      (fun q => decide (q.basketSize = k)) =
      (if validStocks.length < k then []
       else (combinations k validStocks).map
         (mkQuote predict fc sqrtFn table baseInput k)) := by
  intro validSizes
  induction validSizes with
  | nil => intro hc; exact absurd hc (by simp)
  | cons k' rest ih =>
    intro hc
    have hsplit : batchQuotesRaw predict fc sqrtFn table baseInput (k' :: rest) validStocks =
        (if validStocks.length < k' then []
         else (combinations k' validStocks).map (mkQuote predict fc sqrtFn table baseInput k'))
        ++ batchQuotesRaw predict fc sqrtFn table baseInput rest validStocks := rfl
    rw [hsplit, List.filter_append]
    by_cases hkk : k = k'
    · subst hkk
      have hk' : k ∉ rest := by
        apply List.count_eq_zero.mp
        have := List.count_cons_self k rest
        omega
      have hrest0 : (batchQuotesRaw predict fc sqrtFn table baseInput rest validStocks).filter
          (fun q => decide (q.basketSize = k)) = [] :=
        filter_batchQuotesRaw_not_mem hk'
      rw [hrest0, List.append_nil]
      by_cases hlen : validStocks.length < k
      · rw [if_pos hlen]
        rfl
      · rw [if_neg hlen]
        apply List.filter_eq_self.mpr
        intro q hq
        rcases List.mem_map.mp hq with ⟨c, _, rfl⟩
        exact decide_eq_true rfl
    · have hblk : (if validStocks.length < k' then []
          else (combinations k' validStocks).map
            (mkQuote predict fc sqrtFn table baseInput k')).filter
          (fun q => decide (q.basketSize = k)) = [] := by
        rw [List.filter_eq_nil_iff]
        intro q hq
        by_cases hlen : validStocks.length < k'
        · rw [if_pos hlen] at hq
          exact absurd hq (List.not_mem_nil _)
        · rw [if_neg hlen] at hq
          rcases List.mem_map.mp hq with ⟨c, _, rfl⟩
          simp only [decide_eq_true_eq]
          exact fun h => hkk h.symm
      rw [hblk, List.nil_append]
      apply ih
      rw [List.count_cons_of_ne hkk] at hc
      exact hc

/-- The (stocks, size) image of a size-filtered batch response is a permutation of
the same image of the size-filtered raw quote list: id assignment, coupon sorting
and boost annotation neither create, drop, nor alter symbol sets. -/
theorem batchSuccess_filter_proj_perm (m : ModelFn) (fc : List String) (sqrtFn : ℚ → ℚ)
    (table : SymTable) (dates : List String) (breq : BatchFCNRequest) (k : ℕ) :
    (((batchSuccess m fc sqrtFn table dates breq).quotes.filter
        (fun q => decide (q.basketSize = k))).map (fun q => (q.stocks, q.basketSize))).Perm
      (((batchQuotesRaw m fc sqrtFn table
          (mkInputData breq.strikePrice breq.knockOutPrice breq.knockInPrice breq.period
            breq.customFeeRate breq.kiType (effectiveNonCall breq.nonCallPeriods breq.period))
          (validSizesOf breq.basketSizes) (validStocksOf table breq.stockPool)).filter
        (fun q => decide (q.basketSize = k))).map (fun q => (q.stocks, q.basketSize))) := by
  set p : Quote → Bool := fun q => decide (q.basketSize = k) with hp
  set π : Quote → List String × ℕ := fun q => (q.stocks, q.basketSize) with hπ
  set raw := batchQuotesRaw m fc sqrtFn table
    (mkInputData breq.strikePrice breq.knockOutPrice breq.knockInPrice breq.period
      breq.customFeeRate breq.kiType (effectiveNonCall breq.nonCallPeriods breq.period))
    (validSizesOf breq.basketSizes) (validStocksOf table breq.stockPool) with hraw
  set ids := assignIds 0 raw with hids
  set sorted := pySorted (fun a b : Quote => decide (a.couponRate < b.couponRate)) true ids
    with hsorted
  set avgOf := avgCouponBySize (validSizesOf breq.basketSizes) sorted with havg
  set ms := pyMinNat (validSizesOf breq.basketSizes) with hms
  have hquotes : (batchSuccess m fc sqrtFn table dates breq).quotes =
      sorted.map (annotateBoost avgOf ms) := rfl
  rw [hquotes]
  have h1 : (sorted.map (annotateBoost avgOf ms)).filter p =
      (sorted.filter p).map (annotateBoost avgOf ms) := by
    rw [List.filter_map]
    congr 1
    apply List.filter_congr
    intro q _
    show p (annotateBoost avgOf ms q) = p q
    simp only [hp, annotateBoost_basketSize]
  rw [h1, List.map_map]
  have h2 : (π ∘ annotateBoost avgOf ms) = π := by
    funext q
    show ((annotateBoost avgOf ms q).stocks, (annotateBoost avgOf ms q).basketSize) =
      (q.stocks, q.basketSize)
    rw [annotateBoost_stocks, annotateBoost_basketSize]
  rw [h2]
  have h3 : ((sorted.filter p).map π).Perm ((ids.filter p).map π) :=
    ((pySorted_perm _ true ids).filter p).map π
  have h4 : (ids.filter p).map π = (raw.filter p).map π := by
    rw [hids]
    exact assignIds_filter_map_proj p π (fun _ _ => rfl) (fun _ _ => rfl) 0 raw
  rw [h4] at h3
  exact h3

/-- Claim C3 (corrected): for a requested basket size k (1 ≤ k ≤ 4) — provided k
occurs only once in the requested size list (other sizes may repeat) — a successful
batch response carries exactly C(N, k) quotes of size k, where N counts the
distinct pool symbols that have a row; no two of them share the same symbol set,
and each symbol set is a k-element duplicate-free sub-selection of those N symbols.
A duplicated entry in `basketSizes` duplicates its whole block of quotes (see the
counterexample). -/
theorem fcn_c3_batch_combinations {m : ModelFn} {fc : List String} {sqrtFn : ℚ → ℚ}
    {ivDb : String → Option SymTable} {dates : List String} {breq : BatchFCNRequest}
    {table : SymTable} {resp : BatchResponse} {k : ℕ}
    (hc : breq.basketSizes.count k = 1)
    (htab : ivDb (resolvePricingDate breq.pricingDate dates) = some table)
    (hok : batchCalculateFcn (some m) fc sqrtFn ivDb dates breq = .ok resp)
    (hk1 : 1 ≤ k) (hk4 : k ≤ 4) :
    ((resp.quotes.filter fun q => decide (q.basketSize = k)).length =
      ((validStocksOf table breq.stockPool).length).choose k) ∧
    ((resp.quotes.filter fun q => decide (q.basketSize = k)).Pairwise
      fun q₁ q₂ => ¬ q₁.stocks.Perm q₂.stocks) ∧
    (∀ q ∈ resp.quotes, q.basketSize = k →
      q.stocks.length = k ∧ q.stocks.Sublist (validStocksOf table breq.stockPool) ∧
      q.stocks.Nodup) := by
  obtain ⟨h1, h4, table', heq, h5, rfl⟩ := batchCalculateFcn_ok_inv hok
  rw [htab] at heq
  have hte : table = table' := Option.some.inj heq
  subst hte
  have hcv : (validSizesOf breq.basketSizes).count k = 1 := by
    rw [validSizesOf, List.count_filter]
    · exact hc
    · simp [hk1, hk4]
  have hperm := batchSuccess_filter_proj_perm m fc sqrtFn table dates breq k
  have hfilter := @filter_batchQuotesRaw_mem m fc sqrtFn table
    (mkInputData breq.strikePrice breq.knockOutPrice breq.knockInPrice breq.period
      breq.customFeeRate breq.kiType (effectiveNonCall breq.nonCallPeriods breq.period))
    (validStocksOf table breq.stockPool) k (validSizesOf breq.basketSizes) hcv
  rw [hfilter] at hperm
  refine ⟨?_, ?_, ?_⟩
  · have hlen := hperm.length_eq
    rw [List.length_map, List.length_map] at hlen
    rw [hlen]
    by_cases hsz : (validStocksOf table breq.stockPool).length < k
    · rw [if_pos hsz]
      simp [Nat.choose_eq_zero_of_lt hsz]
    · rw [if_neg hsz]
      rw [List.length_map, length_combinations]
  · have hS : ∀ l : List Quote,
        ((l.map fun q => (q.stocks, q.basketSize)).Pairwise
          fun p₁ p₂ => ¬ p₁.1.Perm p₂.1) ↔
        l.Pairwise fun q₁ q₂ => ¬ q₁.stocks.Perm q₂.stocks := by
      intro l
      rw [List.pairwise_map]
    refine (hS _).mp ?_
    refine ((hperm.pairwise_iff ?_).mpr ?_)
    · exact fun h hp => h hp.symm
    · by_cases hsz : (validStocksOf table breq.stockPool).length < k
      · rw [if_pos hsz]
        exact List.Pairwise.nil
      · rw [if_neg hsz, List.map_map]
        have : ((fun q : Quote => (q.stocks, q.basketSize)) ∘
            mkQuote m fc sqrtFn table
              (mkInputData breq.strikePrice breq.knockOutPrice breq.knockInPrice breq.period
                breq.customFeeRate breq.kiType (effectiveNonCall breq.nonCallPeriods breq.period))
              k) = fun c => (c, k) := rfl
        rw [this]
        refine List.pairwise_map.mpr ?_
        exact (combinations_pairwise_not_perm k
          (nodup_validStocksOf table breq.stockPool)).imp fun h => h
  · intro q hq hqk
    obtain ⟨k', _, combo, hcombo, hst, hbs, _, _⟩ := mem_batchSuccess_quotes hq
    obtain rfl : k' = k := by rw [← hqk, hbs]
    obtain ⟨hsub, hlen⟩ := mem_combinations_sublist hcombo
    refine ⟨?_, ?_, ?_⟩
    · rw [hst, hlen]
    · rw [hst]; exact hsub
    · rw [hst]
      exact hsub.nodup (nodup_validStocksOf table breq.stockPool)

theorem fcn_c3_batch_combinations_witness :
    (((batchSuccess modelEx ["PX_LAST"] sqrt0 tableEx ["20250101"] breqDup).quotes.filter
        fun q => decide (q.basketSize = 1)).length =
      ((validStocksOf tableEx breqDup.stockPool).length).choose 1) ∧
    (((batchSuccess modelEx ["PX_LAST"] sqrt0 tableEx ["20250101"] breqDup).quotes.filter
        fun q => decide (q.basketSize = 1)).Pairwise
      fun q₁ q₂ => ¬ q₁.stocks.Perm q₂.stocks) ∧
    (∀ q ∈ (batchSuccess modelEx ["PX_LAST"] sqrt0 tableEx ["20250101"] breqDup).quotes,
      q.basketSize = 1 →
      q.stocks.length = 1 ∧ q.stocks.Sublist (validStocksOf tableEx breqDup.stockPool) ∧
      q.stocks.Nodup) :=
  fcn_c3_batch_combinations (by decide) rfl
    (@batchCalculateFcn_eval modelEx ["PX_LAST"] sqrt0 ivDbEx ["20250101"] breqDup tableEx
      (by decide) (by decide) (by decide) (by decide) rfl (by decide))
    (by decide) (by decide)

set_option maxHeartbeats 4000000 in
set_option maxRecDepth 1000000 in
/-- Claim C3 counterexample: with the duplicated size list `[1, 1]` over a pool of
two valid symbols the batch emits four size-1 quotes, not C(2,1) = 2, and the
singleton set {AAA} appears twice. -/
theorem fcn_c3_counterexample :
    ((batchCalculateFcn (some modelEx) ["PX_LAST"] sqrt0 ivDbEx ["20250101"]
        { breqEx with basketSizes := [1, 1] }).toOption.map
      (fun r => (r.quotes.filter fun q => decide (q.basketSize = 1)).length)) = some 4 ∧
    ((batchCalculateFcn (some modelEx) ["PX_LAST"] sqrt0 ivDbEx ["20250101"]
        { breqEx with basketSizes := [1, 1] }).toOption.map
      (fun r => r.quotes.map Quote.stocks)) =
        some [["AAA"], ["BBB"], ["AAA"], ["BBB"]] ∧
    ((validStocksOf tableEx breqEx.stockPool).length).choose 1 = 2 ∧ (4 : ℕ) ≠ 2 := by
  refine ⟨by decide, by decide, by decide, by decide⟩

/-- Claim C5: `collectStocks` (the single-quote symbol loop) fails exactly when a
requested symbol has no row; the failure is surfaced: with no pricing dates both
endpoints return 404, and with a missing symbol the single quote returns the
not-found-data error (status 400 wrapped by the endpoint's `except Exception`
handler into the 500 `計算錯誤` response).  Batch mode instead quotes only pool
symbols that have a row and fails on missing data exactly when no pool symbol has
one. -/
theorem fcn_c5_not_found (m : ModelFn) (fc : List String) (sqrtFn : ℚ → ℚ)
    (ivDb : String → Option SymTable) :
    (∀ req, calculateFcn (some m) fc sqrtFn ivDb [] req =
      .error (.http 404 "沒有可用的IV資料")) ∧
    (∀ breq, batchCalculateFcn (some m) fc sqrtFn ivDb [] breq =
      .error (.http 404 "沒有可用的IV資料")) ∧
    (∀ (table : SymTable) (stocks : List String),
      (∃ bbg, collectStocks table stocks = .error bbg) ↔ ∃ bbg ∈ stocks, table bbg = none) ∧
    (∀ (dates : List String) (req : FCNRequest) (table : SymTable) (bbg : String),
      dates ≠ [] → req.knockInPrice < req.strikePrice → req.strikePrice < req.knockOutPrice →
      ivDb (resolvePricingDate req.pricingDate dates) = some table →
      collectStocks table req.stocks = .error bbg →
      calculateFcn (some m) fc sqrtFn ivDb dates req =
        .error (.calcWrapped (.http 400 ("找不到股票 " ++ bbg ++ " 的IV資料")))) ∧
    (∀ (table : SymTable) (pool : List String) (s : String),
      s ∈ validStocksOf table pool ↔ s ∈ pool ∧ (table s).isSome) ∧
    (∀ (dates : List String) (breq : BatchFCNRequest) (table : SymTable)
        (resp : BatchResponse),
      ivDb (resolvePricingDate breq.pricingDate dates) = some table →
      batchCalculateFcn (some m) fc sqrtFn ivDb dates breq = .ok resp →
      ∀ q ∈ resp.quotes, ∀ s ∈ q.stocks, s ∈ breq.stockPool ∧ (table s).isSome) ∧
    (∀ (dates : List String) (breq : BatchFCNRequest) (table : SymTable),
      dates ≠ [] → breq.knockInPrice < breq.strikePrice →
      breq.strikePrice < breq.knockOutPrice →
      validSizesOf breq.basketSizes ≠ [] →
      ivDb (resolvePricingDate breq.pricingDate dates) = some table →
      (batchCalculateFcn (some m) fc sqrtFn ivDb dates breq =
          .error (.batchWrapped (.http 400 "股票池中沒有可用的IV資料"))
        ↔ ∀ s ∈ breq.stockPool, table s = none)) := by
  refine ⟨fun req => rfl, fun breq => rfl, ?_, ?_, ?_, ?_, ?_⟩
  · intro table stocks
    induction stocks with
    | nil =>
      constructor
      · rintro ⟨bbg, hbbg⟩
        exact Except.noConfusion hbbg
      · rintro ⟨bbg, hmem, _⟩
        exact absurd hmem (List.not_mem_nil bbg)
    | cons bbg rest ih =>
      cases h : table bbg with
      | none =>
        constructor
        · intro _
          exact ⟨bbg, List.mem_cons_self bbg rest, h⟩
        · intro _
          refine ⟨bbg, ?_⟩
          show (match table bbg with
            | some o => match collectStocks table rest with
              | .ok (l, info) => Except.ok (o :: l,
                  (bbg, ⟨o.px_last, o.put_imp_vol_3m, o.volatility_90d⟩) :: info)
              | .error e => Except.error e
            | none => Except.error bbg) = Except.error bbg
          rw [h]
      | some o =>
        cases hrec : collectStocks table rest with
        | ok pair =>
          constructor
          · rintro ⟨b, hb⟩
            exfalso
            revert hb
            show (match table bbg with
              | some o => match collectStocks table rest with
                | .ok (l, info) => Except.ok (o :: l,
                    (bbg, ⟨o.px_last, o.put_imp_vol_3m, o.volatility_90d⟩) :: info)
                | .error e => Except.error e
              | none => Except.error bbg) = Except.error b → False
            rw [h, hrec]
            exact fun hb => Except.noConfusion hb
          · rintro ⟨b, hmem, hb⟩
            rcases List.mem_cons.mp hmem with rfl | hmem
            · rw [h] at hb
              exact Option.noConfusion hb
            · rcases ih.mpr ⟨b, hmem, hb⟩ with ⟨e, he⟩
              rw [hrec] at he
              exact Except.noConfusion he
        | error e =>
          have hresult : collectStocks table (bbg :: rest) = .error e := by
            show (match table bbg with
              | some o => match collectStocks table rest with
                | .ok (l, info) => Except.ok (o :: l,
                    (bbg, ⟨o.px_last, o.put_imp_vol_3m, o.volatility_90d⟩) :: info)
                | .error e => Except.error e
              | none => Except.error bbg) = Except.error e
            rw [h, hrec]
          constructor
          · intro _
            rcases ih.mp ⟨e, hrec⟩ with ⟨b, hmem, hb⟩
            exact ⟨b, List.mem_cons_of_mem bbg hmem, hb⟩
          · intro _
            exact ⟨e, hresult⟩
  · intro dates req table bbg hdates hki hko htab hcol
    have hki' : ¬(req.knockInPrice ≥ req.strikePrice) := fun hc => absurd hki (not_lt.mpr hc)
    have hko' : ¬(req.knockOutPrice ≤ req.strikePrice) := not_le.mpr hko
    simp only [calculateFcn, if_neg hdates, if_neg hki', if_neg hko', htab, hcol]
  · intro table pool s
    exact mem_validStocksOf
  · intro dates breq table resp htab hok q hq s hs
    obtain ⟨h1, h4, table', heq, h5, rfl⟩ := batchCalculateFcn_ok_inv hok
    rw [htab] at heq
    have hte : table = table' := Option.some.inj heq
    subst hte
    obtain ⟨k, _, combo, hcombo, hst, _, _, _⟩ := mem_batchSuccess_quotes hq
    rw [hst] at hs
    exact mem_validStocksOf.mp ((mem_combinations_sublist hcombo).1.subset hs)
  · intro dates breq table hdates hki hko hvs htab
    have hki' : ¬(breq.knockInPrice ≥ breq.strikePrice) := fun hc => absurd hki (not_lt.mpr hc)
    have hko' : ¬(breq.knockOutPrice ≤ breq.strikePrice) := not_le.mpr hko
    constructor
    · intro herr
      by_contra hnall
      have hne : validStocksOf table breq.stockPool ≠ [] := fun hnil =>
        hnall (validStocksOf_eq_nil.mp hnil)
      rw [batchCalculateFcn_eval hdates hki hko hvs htab hne] at herr
      exact Except.noConfusion herr
    · intro hall
      have hnil : validStocksOf table breq.stockPool = [] := validStocksOf_eq_nil.mpr hall
      simp only [batchCalculateFcn, if_neg hdates, if_neg hki', if_neg hko', if_neg hvs, htab,
        if_pos hnil]

theorem fcn_c5_not_found_witness :
    calculateFcn (some modelEx) ["PX_LAST"] sqrt0 ivDbEx [] reqEx =
      .error (.http 404 "沒有可用的IV資料") ∧
    calculateFcn (some modelEx) ["PX_LAST"] sqrt0 ivDbEx ["20250101"]
        { reqEx with stocks := ["AAA", "CCC"] } =
      .error (.calcWrapped (.http 400 ("找不到股票 " ++ "CCC" ++ " 的IV資料"))) ∧
    batchCalculateFcn (some modelEx) ["PX_LAST"] sqrt0 ivDbEx ["20250101"]
        { breqEx with stockPool := ["XXX"] } =
      .error (.batchWrapped (.http 400 "股票池中沒有可用的IV資料")) := by
  have H := fcn_c5_not_found modelEx ["PX_LAST"] sqrt0 ivDbEx
  refine ⟨H.1 reqEx, ?_, ?_⟩
  · exact H.2.2.2.1 ["20250101"] { reqEx with stocks := ["AAA", "CCC"] } tableEx "CCC"
      (by decide) (by decide) (by decide) rfl rfl
  · exact (H.2.2.2.2.2.2 ["20250101"] { breqEx with stockPool := ["XXX"] } tableEx
      (by decide) (by decide) (by decide) (by decide) rfl).mpr (by decide)

/-! ## Yield boost lemmas -/

theorem assignIds_mem_of_mem : ∀ {n : ℕ} {l : List Quote} {q : Quote}, q ∈ l →
    ∃ q' ∈ assignIds n l, ∃ s, q' = { q with id := s }
  | _, [], q, h => absurd h (List.not_mem_nil q)
  | n, q₀ :: rest, q, h => by
    rcases List.mem_cons.mp h with rfl | h
    · exact ⟨{ q with id := "quote-" ++ toString n }, List.mem_cons_self _ _, _, rfl⟩
    · rcases assignIds_mem_of_mem (n := n + 1) h with ⟨q', hq', s, rfl⟩
      exact ⟨{ q with id := s }, List.mem_cons_of_mem _ hq', s, rfl⟩

/-- Boost annotation does not change the per-size coupon averages. -/
theorem avgCouponBySize_map_annotate (a : ℕ → Option ℚ) (ms : ℕ) (vs : List ℕ)
    (l : List Quote) (k : ℕ) :
    avgCouponBySize vs (l.map (annotateBoost a ms)) k = avgCouponBySize vs l k := by
  unfold avgCouponBySize
  have hfm : (l.map (annotateBoost a ms)).filter (fun q => decide (q.basketSize = k)) =
      (l.filter fun q => decide (q.basketSize = k)).map (annotateBoost a ms) := by
    rw [List.filter_map]
    congr 1
    apply List.filter_congr
    intro q _
    show decide ((annotateBoost a ms q).basketSize = k) = decide (q.basketSize = k)
    rw [annotateBoost_basketSize]
  rw [hfm]
  have h2 : ((l.filter fun q => decide (q.basketSize = k)).map
        (annotateBoost a ms)).map Quote.couponRate =
      (l.filter fun q => decide (q.basketSize = k)).map Quote.couponRate := by
    rw [List.map_map]
    apply List.map_congr_left
    intro q _
    exact annotateBoost_couponRate a ms q
  by_cases hne : (l.filter fun q => decide (q.basketSize = k)) = []
  · rw [hne]
    simp
  · have hne2 : ((l.filter fun q => decide (q.basketSize = k)).map (annotateBoost a ms)) ≠ [] :=
      fun h => hne (List.map_eq_nil_iff.mp h)
    by_cases hk : k ∈ vs
    · rw [if_pos ⟨hk, hne2⟩, if_pos ⟨hk, hne⟩, h2]
    · rw [if_neg fun hc => hk hc.1, if_neg fun hc => hk hc.1]

theorem mem_batchQuotesRaw_size_fits {predict : ModelFn} {fc : List String}
    {sqrtFn : ℚ → ℚ} {table : SymTable} {baseInput : InputData} {validSizes : List ℕ}
    {validStocks : List String} {q : Quote}
    (hq : q ∈ batchQuotesRaw predict fc sqrtFn table baseInput validSizes validStocks) :
    q.basketSize ∈ validSizes ∧ q.basketSize ≤ validStocks.length := by
  rcases List.mem_flatMap.mp hq with ⟨k, hk, hq₂⟩
  by_cases hlen : validStocks.length < k
  · rw [if_pos hlen] at hq₂
    exact absurd hq₂ (List.not_mem_nil _)
  · rw [if_neg hlen] at hq₂
    rcases List.mem_map.mp hq₂ with ⟨c, _, rfl⟩
    exact ⟨hk, not_lt.mp hlen⟩

/-- Claim C7 (corrected): in a batch response a per-size average coupon is defined
for every size that has quotes; every quote whose size exceeds the minimum
requested valid size carries `yieldBoost = round(avg(its size) − avg(min size), 2)`
— the claim's "its size's average minus the minimum size's average" up to the
code's two-decimal rounding (see the counterexample) — and every quote at the
minimum size carries no boost value. -/
theorem fcn_c7_yield_boost {m : ModelFn} {fc : List String} {sqrtFn : ℚ → ℚ}
    {ivDb : String → Option SymTable} {dates : List String} {breq : BatchFCNRequest}
    {resp : BatchResponse}
    (hok : batchCalculateFcn (some m) fc sqrtFn ivDb dates breq = .ok resp) :
    ∀ q ∈ resp.quotes,
      (pyMinNat (validSizesOf breq.basketSizes) < q.basketSize →
        ∃ a b, avgCouponBySize (validSizesOf breq.basketSizes) resp.quotes q.basketSize = some a ∧
          avgCouponBySize (validSizesOf breq.basketSizes) resp.quotes
            (pyMinNat (validSizesOf breq.basketSizes)) = some b ∧
          q.yieldBoost = some (round2 (a - b))) ∧
      (q.basketSize = pyMinNat (validSizesOf breq.basketSizes) → q.yieldBoost = none) := by
  obtain ⟨h1, h4, table, heq, h5, rfl⟩ := batchCalculateFcn_ok_inv hok
  intro q hq
  have hquotes : (batchSuccess m fc sqrtFn table dates breq).quotes =
      (pySorted (fun a b : Quote => decide (a.couponRate < b.couponRate)) true
        (assignIds 0 (batchQuotesRaw m fc sqrtFn table
          (mkInputData breq.strikePrice breq.knockOutPrice breq.knockInPrice breq.period
            breq.customFeeRate breq.kiType (effectiveNonCall breq.nonCallPeriods breq.period))
          (validSizesOf breq.basketSizes) (validStocksOf table breq.stockPool)))).map
        (annotateBoost
          (avgCouponBySize (validSizesOf breq.basketSizes)
            (pySorted (fun a b : Quote => decide (a.couponRate < b.couponRate)) true
              (assignIds 0 (batchQuotesRaw m fc sqrtFn table
                (mkInputData breq.strikePrice breq.knockOutPrice breq.knockInPrice breq.period
                  breq.customFeeRate breq.kiType
                  (effectiveNonCall breq.nonCallPeriods breq.period))
                (validSizesOf breq.basketSizes) (validStocksOf table breq.stockPool)))))
          (pyMinNat (validSizesOf breq.basketSizes))) := rfl
  rw [hquotes] at hq
  rcases List.mem_map.mp hq with ⟨q₀, hq₀, rfl⟩
  have hperm := pySorted_perm (fun a b : Quote => decide (a.couponRate < b.couponRate)) true
    (assignIds 0 (batchQuotesRaw m fc sqrtFn table
      (mkInputData breq.strikePrice breq.knockOutPrice breq.knockInPrice breq.period
        breq.customFeeRate breq.kiType (effectiveNonCall breq.nonCallPeriods breq.period))
      (validSizesOf breq.basketSizes) (validStocksOf table breq.stockPool)))
  rcases mem_assignIds (hperm.mem_iff.mp hq₀) with ⟨q₂, hq₂, s, rfl⟩
  obtain ⟨hkv, hkle⟩ := mem_batchQuotesRaw_size_fits hq₂
  -- the sorted list restricted to the minimum size is nonempty
  have hms_mem : pyMinNat (validSizesOf breq.basketSizes) ∈ validSizesOf breq.basketSizes :=
    pyMinNat_mem h4
  have hms_le : pyMinNat (validSizesOf breq.basketSizes) ≤
      (validStocksOf table breq.stockPool).length :=
    le_trans (pyMinNat_le q₂.basketSize hkv) hkle
  have hcomb_pos : 0 < (combinations (pyMinNat (validSizesOf breq.basketSizes))
      (validStocksOf table breq.stockPool)).length := by
    rw [length_combinations]
    exact Nat.choose_pos hms_le
  obtain ⟨c₀, hc₀⟩ := List.exists_mem_of_length_pos hcomb_pos
  have hraw_ms : mkQuote m fc sqrtFn table
      (mkInputData breq.strikePrice breq.knockOutPrice breq.knockInPrice breq.period
        breq.customFeeRate breq.kiType (effectiveNonCall breq.nonCallPeriods breq.period))
      (pyMinNat (validSizesOf breq.basketSizes)) c₀ ∈
      batchQuotesRaw m fc sqrtFn table
        (mkInputData breq.strikePrice breq.knockOutPrice breq.knockInPrice breq.period
          breq.customFeeRate breq.kiType (effectiveNonCall breq.nonCallPeriods breq.period))
        (validSizesOf breq.basketSizes) (validStocksOf table breq.stockPool) := by
    refine List.mem_flatMap.mpr ⟨pyMinNat (validSizesOf breq.basketSizes), hms_mem, ?_⟩
    rw [if_neg (not_lt.mpr hms_le)]
    exact List.mem_map_of_mem _ hc₀
  rcases assignIds_mem_of_mem (n := 0) hraw_ms with ⟨q₃, hq₃, s₃, rfl⟩
  have hq₃s : { mkQuote m fc sqrtFn table
      (mkInputData breq.strikePrice breq.knockOutPrice breq.knockInPrice breq.period
        breq.customFeeRate breq.kiType (effectiveNonCall breq.nonCallPeriods breq.period))
      (pyMinNat (validSizesOf breq.basketSizes)) c₀ with id := s₃ } ∈
      pySorted (fun a b : Quote => decide (a.couponRate < b.couponRate)) true
        (assignIds 0 (batchQuotesRaw m fc sqrtFn table
          (mkInputData breq.strikePrice breq.knockOutPrice breq.knockInPrice breq.period
            breq.customFeeRate breq.kiType (effectiveNonCall breq.nonCallPeriods breq.period))
          (validSizesOf breq.basketSizes) (validStocksOf table breq.stockPool))) :=
    hperm.mem_iff.mpr hq₃
  have hms_filter : (pySorted (fun a b : Quote => decide (a.couponRate < b.couponRate)) true
      (assignIds 0 (batchQuotesRaw m fc sqrtFn table
        (mkInputData breq.strikePrice breq.knockOutPrice breq.knockInPrice breq.period
          breq.customFeeRate breq.kiType (effectiveNonCall breq.nonCallPeriods breq.period))
        (validSizesOf breq.basketSizes) (validStocksOf table breq.stockPool)))).filter
      (fun q => decide (q.basketSize = pyMinNat (validSizesOf breq.basketSizes))) ≠ [] := by
    apply List.ne_nil_of_mem (a := { mkQuote m fc sqrtFn table
      (mkInputData breq.strikePrice breq.knockOutPrice breq.knockInPrice breq.period
        breq.customFeeRate breq.kiType (effectiveNonCall breq.nonCallPeriods breq.period))
      (pyMinNat (validSizesOf breq.basketSizes)) c₀ with id := s₃ })
    refine List.mem_filter.mpr ⟨hq₃s, ?_⟩
    exact decide_eq_true rfl
  have havg_ms : (avgCouponBySize (validSizesOf breq.basketSizes)
      (pySorted (fun a b : Quote => decide (a.couponRate < b.couponRate)) true
        (assignIds 0 (batchQuotesRaw m fc sqrtFn table
          (mkInputData breq.strikePrice breq.knockOutPrice breq.knockInPrice breq.period
            breq.customFeeRate breq.kiType (effectiveNonCall breq.nonCallPeriods breq.period))
          (validSizesOf breq.basketSizes) (validStocksOf table breq.stockPool))))
      (pyMinNat (validSizesOf breq.basketSizes))).isSome := by
    unfold avgCouponBySize
    rw [if_pos ⟨hms_mem, hms_filter⟩]
    rfl
  constructor
  · intro hlt
    rw [annotateBoost_basketSize] at hlt
    have hlt' : pyMinNat (validSizesOf breq.basketSizes) < q₂.basketSize := hlt
    -- own-size filter is nonempty: the quote itself is in it
    have hown_filter : (pySorted (fun a b : Quote => decide (a.couponRate < b.couponRate)) true
        (assignIds 0 (batchQuotesRaw m fc sqrtFn table
          (mkInputData breq.strikePrice breq.knockOutPrice breq.knockInPrice breq.period
            breq.customFeeRate breq.kiType (effectiveNonCall breq.nonCallPeriods breq.period))
          (validSizesOf breq.basketSizes) (validStocksOf table breq.stockPool)))).filter
        (fun q => decide (q.basketSize = q₂.basketSize)) ≠ [] := by
      apply List.ne_nil_of_mem (a := { q₂ with id := s })
      refine List.mem_filter.mpr ⟨hq₀, ?_⟩
      exact decide_eq_true rfl
    have havg_own : (avgCouponBySize (validSizesOf breq.basketSizes)
        (pySorted (fun a b : Quote => decide (a.couponRate < b.couponRate)) true
          (assignIds 0 (batchQuotesRaw m fc sqrtFn table
            (mkInputData breq.strikePrice breq.knockOutPrice breq.knockInPrice breq.period
              breq.customFeeRate breq.kiType (effectiveNonCall breq.nonCallPeriods breq.period))
            (validSizesOf breq.basketSizes) (validStocksOf table breq.stockPool))))
        q₂.basketSize).isSome := by
      unfold avgCouponBySize
      rw [if_pos ⟨hkv, hown_filter⟩]
      rfl
    rcases Option.isSome_iff_exists.mp havg_own with ⟨a, ha⟩
    rcases Option.isSome_iff_exists.mp havg_ms with ⟨b, hb⟩
    refine ⟨a, b, ?_, ?_, ?_⟩
    · rw [hquotes, annotateBoost_basketSize, avgCouponBySize_map_annotate]
      exact ha
    · rw [hquotes, avgCouponBySize_map_annotate]
      exact hb
    · show (annotateBoost _ _ { q₂ with id := s }).yieldBoost = _
      unfold annotateBoost
      rw [if_pos ⟨hlt', by rw [hb]; rfl⟩]
      show some (round2 _) = some (round2 (a - b))
      have hbs2 : ({ q₂ with id := s } : Quote).basketSize = q₂.basketSize := rfl
      rw [hbs2, ha, hb]
      rfl
  · intro heq2
    rw [annotateBoost_basketSize] at heq2
    have heq2' : q₂.basketSize = pyMinNat (validSizesOf breq.basketSizes) := heq2
    show (annotateBoost _ _ { q₂ with id := s }).yieldBoost = none
    unfold annotateBoost
    rw [if_neg]
    intro hc
    have : pyMinNat (validSizesOf breq.basketSizes) < q₂.basketSize := hc.1
    rw [heq2'] at this
    exact lt_irrefl _ this

set_option maxHeartbeats 4000000 in
set_option maxRecDepth 1000000 in
theorem fcn_c7_yield_boost_witness :
    ∃ q, q ∈ (batchSuccess modelEx ["PX_LAST"] sqrt0 tableEx ["20250101"] breqEx).quotes ∧
      ((pyMinNat (validSizesOf breqEx.basketSizes) < q.basketSize →
        ∃ a b, avgCouponBySize (validSizesOf breqEx.basketSizes)
            (batchSuccess modelEx ["PX_LAST"] sqrt0 tableEx ["20250101"] breqEx).quotes
            q.basketSize = some a ∧
          avgCouponBySize (validSizesOf breqEx.basketSizes)
            (batchSuccess modelEx ["PX_LAST"] sqrt0 tableEx ["20250101"] breqEx).quotes
            (pyMinNat (validSizesOf breqEx.basketSizes)) = some b ∧
          q.yieldBoost = some (round2 (a - b))) ∧
      (q.basketSize = pyMinNat (validSizesOf breqEx.basketSizes) → q.yieldBoost = none)) := by
  have hne : (batchSuccess modelEx ["PX_LAST"] sqrt0 tableEx ["20250101"] breqEx).quotes ≠ [] := by
    decide
  exact ⟨_, List.head_mem hne,
    fcn_c7_yield_boost (@batchCalculateFcn_eval modelEx ["PX_LAST"] sqrt0 ivDbEx ["20250101"]
      breqEx tableEx
      (by decide) (by decide) (by decide) (by decide) rfl (by decide)) _
      (List.head_mem hne)⟩

set_option maxHeartbeats 4000000 in
set_option maxRecDepth 1000000 in
/-- Claim C7 counterexample: three singleton quotes with coupons 0, 0 and 0.01 give
a size-1 average of 1/300, the size-2 average is 0, so the claim's boost value
would be −1/300; the stored boost is `round(−1/300, 2) = 0`. -/
theorem fcn_c7_counterexample :
    ((batchCalculateFcn (some predictPx) ["PX_LAST"] sqrt0 ivDbP ["20250101"]
        breqP).toOption.map
      (fun r => r.quotes.map fun q => (q.basketSize, q.yieldBoost))) =
      some [(1, none), (1, none), (1, none), (2, some 0), (2, some 0), (2, some 0)] ∧
    ((batchCalculateFcn (some predictPx) ["PX_LAST"] sqrt0 ivDbP ["20250101"]
        breqP).toOption.map
      (fun r => (avgCouponBySize (validSizesOf breqP.basketSizes) r.quotes 2,
                 avgCouponBySize (validSizesOf breqP.basketSizes) r.quotes 1))) =
      some (some 0, some (1/300)) ∧
    (0 : ℚ) - 1/300 ≠ 0 := by
  refine ⟨by decide, by decide, by decide⟩

set_option maxHeartbeats 4000000 in
set_option maxRecDepth 1000000 in
/-- Claim C9 counterexample: with strike 80.33 and KI 60 the claim's distance is
20.33, but every quote stores `round(20.33, 1) = 20.3`. -/
theorem fcn_c9_counterexample :
    ((batchCalculateFcn (some modelEx) ["PX_LAST"] sqrt0 ivDbEx ["20250101"]
        { breqEx with strikePrice := 80.33 }).toOption.map
      (fun r => r.quotes.map Quote.distanceToKI)) = some [203/10, 203/10, 203/10] ∧
    (80.33 : ℚ) - 60 = 2033/100 ∧ (203/10 : ℚ) ≠ 2033/100 := by
  refine ⟨by decide, by decide, by decide⟩
